import Mathlib

/-!
Verification development for the Keyspace Event Watcher (KEW) of
`go/vt/discovery/keyspace_events.go`.

The Go code is embedded shallowly: Go maps become association lists
(`List (String × α)`); pointer mutation becomes functional update; the
per-keyspace mutex disappears (each callback is a pure state transformer,
matching the source's "all transitions happen under the keyspace lock");
`broadcast` is modelled by returning the emitted `KeyspaceEvent` alongside
the new state.  External I/O (the topology fetch inside
`getMoveTablesStatus`, the watch context) is passed in as an explicit
argument.
-/

namespace KEW

/-- Tablet types. Only PRIMARY is distinguished by the watcher. -/
inductive TabletType where
  | primary
  | replica
  | rdonly
deriving DecidableEq, Repr

/-- Models `topodatapb.TabletAlias`. -/
structure TabletAlias where
  cell : String
  uid : Nat
deriving DecidableEq, Repr

/-- Models `querypb.Target`. -/
structure Target where
  keyspace : String
  shard : String
  tabletType : TabletType
deriving DecidableEq, Repr

/-- Models the fields of `discovery.TabletHealth` used by the watcher:
`Target`, `Serving`, `Tablet.Alias` and `PrimaryTermStartTime`. -/
structure TabletHealth where
  target : Target
  serving : Bool
  tablet : TabletAlias
  primaryTermStartTime : Int
deriving DecidableEq, Repr

/-- Models `topodatapb.ShardReference` (only the `Name` field is read by
the watcher; the key range is not consulted in `ensureConsistentLocked`). -/
structure ShardReference where
  name : String
deriving DecidableEq, Repr

/-- Models `topodatapb.ShardTabletControl`; `ensureConsistentLocked` only
tests whether the list of controls is empty, so only the name is kept. -/
structure ShardTabletControl where
  name : String
deriving DecidableEq, Repr

/-- Models `topodatapb.SrvKeyspace_KeyspacePartition`. -/
structure KeyspacePartition where
  servedType : TabletType
  shardReferences : List ShardReference
  shardTabletControls : List ShardTabletControl
deriving DecidableEq, Repr

/-- Models `topodatapb.SrvKeyspace` (the list of partitions). -/
structure SrvKeyspace where
  partitions : List KeyspacePartition
deriving DecidableEq, Repr

/-- Modelled from the spec: `topoproto.SrvKeyspaceGetPartition` (not under
`src/`) returns the partition of the snapshot whose served type matches,
or nil when there is none. -/
def srvKeyspaceGetPartition (sk : SrvKeyspace) (tt : TabletType) :
    Option KeyspacePartition :=
  sk.partitions.find? (fun p => decide (p.servedType = tt))

/-- Models `discovery.MoveTablesStatus`. -/
inductive MoveTablesStatus where
  | unknown
  | switching
  | switched
deriving DecidableEq, Repr

/-- Models `discovery.MoveTablesType`. -/
inductive MoveTablesType where
  | none
  | regular
  | shardByShard
deriving DecidableEq, Repr

/-- Models `discovery.MoveTablesState`. -/
structure MoveTablesState where
  typ : MoveTablesType
  state : MoveTablesStatus
deriving DecidableEq, Repr

/-- Models `discovery.ShardEvent`. -/
structure ShardEvent where
  tablet : Option TabletAlias
  target : Target
  serving : Bool
deriving DecidableEq, Repr

/-- Models `discovery.KeyspaceEvent`. -/
structure KeyspaceEvent where
  cell : String
  keyspace : String
  shards : List ShardEvent
  moveTablesState : MoveTablesState
deriving DecidableEq, Repr

/-- Models `vschemapb.RoutingRule` (`FromTable`, `ToTables`). -/
structure RoutingRule where
  fromTable : String
  toTables : List String
deriving DecidableEq, Repr

/-- Models `vschemapb.ShardRoutingRule` (`FromKeyspace`, `ToKeyspace`, `Shard`). -/
structure ShardRoutingRule where
  fromKeyspace : String
  toKeyspace : String
  shard : String
deriving DecidableEq, Repr

/-- Models `vschemapb.SrvVSchema` (only the rule lists are consulted). -/
structure SrvVSchema where
  routingRules : List RoutingRule
  shardRoutingRules : List ShardRoutingRule
deriving DecidableEq, Repr

/-- Models `topo.TabletControl` as read by `getMoveTablesStatus`
(only `DeniedTables`). -/
structure TabletControl where
  deniedTables : List String
deriving DecidableEq, Repr

/-- Models `topo.ShardInfo` as read by `getMoveTablesStatus`
(`ShardName()` and `TabletControls`). -/
structure ShardInfo where
  shardName : String
  tabletControls : List TabletControl
deriving DecidableEq, Repr

/-- Topology errors; `noNode` models `topo.NoNode`. -/
inductive TopoError where
  | noNode
  | other (msg : String)
deriving DecidableEq, Repr

/-- Models `discovery.shardState`. -/
structure shardState where
  target : Target
  serving : Bool
  waitForReparent : Bool
  externallyReparented : Int
  currentPrimary : Option TabletAlias
deriving DecidableEq, Repr

/-- Models `discovery.keyspaceState`.  The `cell` field stands for the
`kss.kew.localCell` read through the back-pointer; the mutex, which only
serializes the callbacks modelled here as pure transformers, is dropped. -/
structure keyspaceState where
  cell : String
  keyspace : String
  deleted : Bool
  consistent : Bool
  lastError : Option TopoError
  lastKeyspace : Option SrvKeyspace
  shards : List (String × shardState)
  moveTablesState : Option MoveTablesState
deriving DecidableEq, Repr

/-- Association-list lookup, modelling Go map indexing. -/
def findA {α : Type} : List (String × α) → String → Option α
  | [], _ => none
  | (k', v) :: rest, k => if k' = k then some v else findA rest k

/-- Association-list insert/replace, modelling Go map assignment. -/
def insertA {α : Type} : List (String × α) → String → α → List (String × α)
  | [], k, v => [(k, v)]
  | (k', v') :: rest, k, v =>
    if k' = k then (k, v) :: rest else (k', v') :: insertA rest k v

/-- Association-list removal, modelling Go `delete`. -/
def eraseA {α : Type} : List (String × α) → String → List (String × α)
  | [], _ => []
  | (k', v') :: rest, k => if k' = k then rest else (k', v') :: eraseA rest k

/-- Models `newKeyspaceState` (zero-valued fields; the two topology
watchers it starts are modelled by delivering callbacks explicitly). -/
def newKeyspaceState (cell keyspace : String) : keyspaceState :=
  { cell := cell, keyspace := keyspace, deleted := false, consistent := false,
    lastError := none, lastKeyspace := none, shards := [],
    moveTablesState := none }

/-- The move-tables guard at the top of `ensureConsistentLocked`:
`kss.moveTablesState != nil && Typ != MoveTablesNone && State != MoveTablesSwitched`. -/
def mtsBlocked : Option MoveTablesState → Bool
  | some mts =>
    decide (mts.typ ≠ MoveTablesType.none) &&
      decide (mts.state ≠ MoveTablesStatus.switched)
  | none => false

/-- First loop of `ensureConsistentLocked`: every shard named by the
PRIMARY partition is tracked and serving. -/
def allRefsServing (refs : List ShardReference)
    (shards : List (String × shardState)) : Bool :=
  refs.all (fun sr =>
    match findA shards sr.name with
    | some st => st.serving
    | none => false)

/-- Second loop of `ensureConsistentLocked`: every serving tracked shard
is named by the PRIMARY partition. -/
def allServingInRefs (refs : List ShardReference)
    (shards : List (String × shardState)) : Bool :=
  shards.all (fun pr => !pr.2.serving || refs.any (fun sr => sr.name == pr.1))

/-- The PRIMARY partition of the last topology snapshot, if any
(`topoproto.SrvKeyspaceGetPartition(kss.lastKeyspace, PRIMARY)` guarded by
the nil receiver). -/
def primaryPartitionOf (kss : keyspaceState) : Option KeyspacePartition :=
  kss.lastKeyspace.bind (fun sk => srvKeyspaceGetPartition sk TabletType.primary)

/-- Models `keyspaceState.ensureConsistentLocked`.  Returns the new state
together with the `KeyspaceEvent` handed to `broadcast`, if any. -/
def keyspaceState.ensureConsistentLocked (kss : keyspaceState) :
    keyspaceState × Option KeyspaceEvent :=
  if kss.consistent then (kss, none)
  else if mtsBlocked kss.moveTablesState then (kss, none)
  else
    match primaryPartitionOf kss with
    | none => (kss, none)
    | some primary =>
      if primary.shardTabletControls.length > 0 then (kss, none)
      else if allRefsServing primary.shardReferences kss.shards &&
          allServingInRefs primary.shardReferences kss.shards then
        ({ kss with
            consistent := true,
            moveTablesState := none,
            shards := kss.shards.filter (fun pr => pr.2.serving) },
          some { cell := kss.cell,
                 keyspace := kss.keyspace,
                 shards := kss.shards.map (fun pr =>
                   { tablet := pr.2.currentPrimary,
                     target := pr.2.target,
                     serving := pr.2.serving }),
                 moveTablesState :=
                   kss.moveTablesState.getD
                     ⟨MoveTablesType.none, MoveTablesStatus.unknown⟩ })
      else (kss, none)

/-- The serving-transition switch of `onHealthCheck` (`if sstate.serving
!= th.Serving { kss.consistent = false; switch { ... } }`). -/
def servingSwitch (sstate : shardState) (consistent : Bool)
    (th : TabletHealth) : shardState × Bool :=
  if sstate.serving ≠ th.serving then
    (if th.serving && sstate.waitForReparent then
       (if th.primaryTermStartTime > sstate.externallyReparented then
          { sstate with waitForReparent := false, serving := true }
        else sstate)
     else if th.serving then { sstate with serving := true }
     else { sstate with serving := false },
     false)
  else (sstate, consistent)

/-- The unconditional `waitForReparent` reset of `onHealthCheck` on a
non-serving report. -/
def clearWaitOnNotServing (sstate : shardState) (th : TabletHealth) :
    shardState :=
  if !th.serving then { sstate with waitForReparent := false } else sstate

/-- The external-reparent detection of `onHealthCheck`. -/
def reparentDetect (sstate : shardState) (consistent : Bool)
    (th : TabletHealth) : shardState × Bool :=
  if th.primaryTermStartTime ≠ 0 ∧
      th.primaryTermStartTime > sstate.externallyReparented then
    ({ sstate with
        externallyReparented := th.primaryTermStartTime,
        currentPrimary := some th.tablet }, false)
  else (sstate, consistent)

/-- The body of `onHealthCheck` acting on one shard state: the
serving-transition switch, the `waitForReparent` reset on a non-serving
report, and the external-reparent detection.  Returns the new shard state
and the new `consistent` bit. -/
def healthTransition (sstate : shardState) (consistent : Bool)
    (th : TabletHealth) : shardState × Bool :=
  let step1 := servingSwitch sstate consistent th
  reparentDetect (clearWaitOnNotServing step1.1 th) step1.2 th

/-- Models `keyspaceState.onHealthCheck`. -/
def keyspaceState.onHealthCheck (kss : keyspaceState) (th : TabletHealth) :
    keyspaceState × Option KeyspaceEvent :=
  if th.target.tabletType ≠ TabletType.primary then (kss, none)
  else
    match findA kss.shards th.target.shard with
    | none =>
      if !th.serving then (kss, none)
      else
        let s0 : shardState :=
          { target := th.target, serving := false, waitForReparent := false,
            externallyReparented := 0, currentPrimary := none }
        let r := healthTransition s0 kss.consistent th
        keyspaceState.ensureConsistentLocked
          { kss with
            consistent := r.2,
            shards := insertA kss.shards th.target.shard r.1 }
    | some sstate =>
      let r := healthTransition sstate kss.consistent th
      keyspaceState.ensureConsistentLocked
        { kss with
          consistent := r.2,
          shards := insertA kss.shards th.target.shard r.1 }

/-- Models `keyspaceState.onSrvKeyspace`.  Returns the new state, the
broadcast event if any, and the callback's boolean return. -/
def keyspaceState.onSrvKeyspace (kss : keyspaceState)
    (newKeyspace : Option SrvKeyspace) (newError : Option TopoError) :
    keyspaceState × Option KeyspaceEvent × Bool :=
  if newError = some TopoError.noNode then
    ({ kss with deleted := true }, none, false)
  else
    match newError with
    | some e => ({ kss with lastError := some e }, none, true)
    | none =>
      if kss.lastKeyspace = newKeyspace then (kss, none, true)
      else
        let oldPrimary := kss.lastKeyspace.bind
          (fun sk => srvKeyspaceGetPartition sk TabletType.primary)
        let newPrimary := newKeyspace.bind
          (fun sk => srvKeyspaceGetPartition sk TabletType.primary)
        let consistent1 := if oldPrimary ≠ newPrimary then false else kss.consistent
        let r := keyspaceState.ensureConsistentLocked
          { kss with
            consistent := consistent1,
            lastKeyspace := newKeyspace }
        (r.1, r.2, true)

/-- Modelled from the spec: `topotools.GetRoutingRulesMap` (not under
`src/`) turns the table-level routing rules into a map
`table → [qualified-table]`; lookup of one table. -/
def routingRulesLookup (vs : SrvVSchema) (table : String) :
    Option (List String) :=
  (vs.routingRules.find? (fun r => r.fromTable == table)).map
    (fun r => r.toTables)

/-- Modelled from the spec: `topotools.GetShardRoutingRuleKey` (not under
`src/`) builds the `(keyspace, shard)` key of the shard-routing-rules map. -/
def shardRoutingRuleKey (keyspace shard : String) : String :=
  keyspace ++ "." ++ shard

/-- Modelled from the spec: presence of a `(keyspace, shard)` key in the
map built by `topotools.GetShardRoutingRulesMap` (keys are built from each
rule's source keyspace and shard). -/
def shardRoutingRulesHasKey (vs : SrvVSchema) (keyspace shard : String) :
    Bool :=
  vs.shardRoutingRules.any (fun r =>
    shardRoutingRuleKey r.fromKeyspace r.shard ==
      shardRoutingRuleKey keyspace shard)

/-- One step of the denied-tables collection loop of
`getMoveTablesStatus` over one `TabletControl` of the shard named `nm`. -/
def deniedFoldTC (nm : String) (acc : String × List String)
    (tc : TabletControl) : String × List String :=
  if tc.deniedTables.length > 0 then
    (tc.deniedTables.headD "", acc.2 ++ [nm])
  else acc

/-- The denied-tables collection loop over one `ShardInfo`. -/
def deniedFoldSI (acc : String × List String) (si : ShardInfo) :
    String × List String :=
  si.tabletControls.foldl (deniedFoldTC si.shardName) acc

/-- The denied-tables collection loop of `getMoveTablesStatus`: returns
the last remembered denied table (`oneDeniedTable`, `""` if none) and the
list `shardsWithDeniedTables`. -/
def collectDenied (shardInfos : List ShardInfo) : String × List String :=
  shardInfos.foldl deniedFoldSI ("", [])

/-- Models `keyspaceState.getMoveTablesStatus`.  The parallel topology
fetch of the tracked shards' records is external I/O and is passed in as
`fetch` (its error models a failure of `GetTopoServer`, any `GetShard`, or
the error-group wait); it is only consulted when some routing rules exist. -/
def keyspaceState.getMoveTablesStatus (kss : keyspaceState) (vs : SrvVSchema)
    (fetch : Except TopoError (List ShardInfo)) :
    MoveTablesState × Option TopoError :=
  let mtNone : MoveTablesState := ⟨MoveTablesType.none, MoveTablesStatus.unknown⟩
  if vs.routingRules.length = 0 ∧ vs.shardRoutingRules.length = 0 then
    (mtNone, none)
  else
    match fetch with
    | Except.error e => (mtNone, some e)
    | Except.ok shardInfos =>
      let denied := collectDenied shardInfos
      if denied.2.length = 0 then (mtNone, none)
      else if vs.shardRoutingRules.length > 0 then
        (⟨MoveTablesType.shardByShard,
          if denied.2.any (fun sh => shardRoutingRulesHasKey vs kss.keyspace sh)
          then MoveTablesStatus.switching else MoveTablesStatus.switched⟩,
         none)
      else
        (⟨MoveTablesType.regular,
          match routingRulesLookup vs denied.1 with
          | some r =>
            if r.length > 0 && r.headD "" != kss.keyspace ++ "." ++ denied.1
            then MoveTablesStatus.switched else MoveTablesStatus.switching
          | none => MoveTablesStatus.switching⟩,
         none)

/-- Models `keyspaceState.onSrvVSchema`.  `cbErr` is the callback's own
error argument; the source tests it (not the detector's error, which is
bound to the shadowed local `kerr`) and only logs, so neither error value
affects the state. -/
def keyspaceState.onSrvVSchema (kss : keyspaceState) (vs : Option SrvVSchema)
    (cbErr : Option TopoError) (fetch : Except TopoError (List ShardInfo)) :
    keyspaceState × Option KeyspaceEvent × Bool :=
  match vs with
  | none => (kss, none, true)
  | some vs =>
    let _ := cbErr
    let mt := (kss.getMoveTablesStatus vs fetch).1
    let kss1 := { kss with moveTablesState := some mt }
    if mt.typ ≠ MoveTablesType.none then
      let r := keyspaceState.ensureConsistentLocked
        { kss1 with consistent := false }
      (r.1, r.2, true)
    else (kss1, none, true)

/-- The keyspace-level effect of `KeyspaceEventWatcher.MarkShardNotServing`
(the part after `getKeyspaceStatus` has delivered this keyspace's state). -/
def keyspaceState.markShardNotServing (kss : keyspaceState) (shard : String)
    (isReparentErr : Bool) : keyspaceState × Bool :=
  match findA kss.shards shard with
  | none => (kss, false)
  | some sstate =>
    let sstate1 :=
      if isReparentErr then
        { sstate with serving := false, waitForReparent := true }
      else { sstate with serving := false }
    ({ kss with
        consistent := false,
        shards := insertA kss.shards shard sstate1 }, true)

/-- Models `keyspaceState.isConsistent`. -/
def keyspaceState.isConsistent (kss : keyspaceState) : Bool :=
  kss.consistent

/-- Models `discovery.KeyspaceEventWatcher` (the `ts`/`hc` handles and
the subscriber registry are external; the keyspace map remains). -/
structure KeyspaceEventWatcher where
  localCell : String
  keyspaces : List (String × keyspaceState)
deriving DecidableEq, Repr

/-- Models `KeyspaceEventWatcher.getKeyspaceStatus`: looks up the
keyspace, allocating it if never seen, and evicts it (returning nil) when
it is marked deleted. -/
def KeyspaceEventWatcher.getKeyspaceStatus (kew : KeyspaceEventWatcher)
    (keyspace : String) : KeyspaceEventWatcher × Option keyspaceState :=
  let kss := match findA kew.keyspaces keyspace with
    | some k => k
    | none => newKeyspaceState kew.localCell keyspace
  let kew1 := match findA kew.keyspaces keyspace with
    | some _ => kew
    | none => { kew with keyspaces := insertA kew.keyspaces keyspace kss }
  if kss.deleted then
    ({ kew1 with keyspaces := eraseA kew1.keyspaces keyspace }, none)
  else (kew1, some kss)

/-- Models `KeyspaceEventWatcher.ShouldStartBufferingForTarget`. -/
def KeyspaceEventWatcher.ShouldStartBufferingForTarget
    (kew : KeyspaceEventWatcher) (target : Target) :
    KeyspaceEventWatcher × Option TabletAlias × Bool :=
  if target.tabletType ≠ TabletType.primary then (kew, none, false)
  else
    match kew.getKeyspaceStatus target.keyspace with
    | (kew1, none) => (kew1, none, false)
    | (kew1, some ks) =>
      match findA ks.shards target.shard with
      | some state =>
        (kew1, state.currentPrimary,
          !state.serving && !ks.consistent &&
            decide (state.externallyReparented ≠ 0) &&
            state.currentPrimary.isSome)
      | none => (kew1, none, false)

/-- Models `KeyspaceEventWatcher.MarkShardNotServing`. -/
def KeyspaceEventWatcher.MarkShardNotServing (kew : KeyspaceEventWatcher)
    (keyspace shard : String) (isReparentErr : Bool) :
    KeyspaceEventWatcher × Bool :=
  match kew.getKeyspaceStatus keyspace with
  | (kew1, none) => (kew1, false)
  | (kew1, some kss) =>
    match kss.markShardNotServing shard isReparentErr with
    | (kss1, true) =>
      ({ kew1 with keyspaces := insertA kew1.keyspaces keyspace kss1 }, true)
    | (_, false) => (kew1, false)

/-- One pass of the inner loop of `WaitForConsistentKeyspaces`: checks
each named keyspace, blanking the consistent (or deleted) ones, and
reports whether all were consistent. -/
def checkKeyspaces : KeyspaceEventWatcher → List String →
    KeyspaceEventWatcher × List String × Bool
  | kew, [] => (kew, [], true)
  | kew, ks :: rest =>
    if ks = "" then
      let r := checkKeyspaces kew rest
      (r.1, "" :: r.2.1, r.2.2)
    else
      match kew.getKeyspaceStatus ks with
      | (kew1, none) =>
        let r := checkKeyspaces kew1 rest
        (r.1, "" :: r.2.1, r.2.2)
      | (kew1, some kss) =>
        let r := checkKeyspaces kew1 rest
        if kss.isConsistent then (r.1, "" :: r.2.1, r.2.2)
        else (r.1, ks :: r.2.1, false)

/-- Models `KeyspaceEventWatcher.WaitForConsistentKeyspaces`.  The fixed
100 ms polling cadence and the context are modelled by `fuel`: each
recursive step is one sleep period, and exhausting `fuel` stands for the
context being done.  The boolean result is `true` for a nil error and
`false` for returning the context's error. -/
def KeyspaceEventWatcher.WaitForConsistentKeyspaces
    (kew : KeyspaceEventWatcher) (fuel : Nat) (ksList : List String) :
    KeyspaceEventWatcher × Bool :=
  let r := checkKeyspaces kew ksList
  if r.2.2 then (r.1, true)
  else
    match fuel with
    | 0 => (r.1, false)
    | Nat.succ fuel => r.1.WaitForConsistentKeyspaces fuel r.2.1

/-- Models a byte string (Go `[]byte`) as a list of byte values. -/
def Bytes := List Nat
deriving DecidableEq

/-- Modelled from the spec: a key range is a half-open `[start, end)`
byte interval; an empty `kend` means "unbounded above", an empty `start`
means "unbounded below" (`End`/`Start` of `topodatapb.KeyRange`). -/
structure KeyRange where
  start : List Nat
  kend : List Nat
deriving DecidableEq, Repr

/-- Value of one hexadecimal digit. -/
def hexVal (c : Char) : Option Nat :=
  if '0' ≤ c ∧ c ≤ '9' then some (c.toNat - '0'.toNat)
  else if 'a' ≤ c ∧ c ≤ 'f' then some (c.toNat - 'a'.toNat + 10)
  else if 'A' ≤ c ∧ c ≤ 'F' then some (c.toNat - 'A'.toNat + 10)
  else none

/-- Hex decoding of a character list into bytes (pairs of digits). -/
def parseHexChars : List Char → Option (List Nat)
  | [] => some []
  | [_] => none
  | c1 :: c2 :: rest =>
    match hexVal c1, hexVal c2, parseHexChars rest with
    | some h, some l, some bs => some ((h * 16 + l) :: bs)
    | _, _, _ => none

deriving instance DecidableEq for Except

/-- Splits a character list on `-` separators (the `strings.Split`
behaviour used on shard names). -/
def splitDash : List Char → List (List Char)
  | [] => [[]]
  | c :: rest =>
    if c = '-' then [] :: splitDash rest
    else
      match splitDash rest with
      | [] => [[c]]
      | p :: ps => (c :: p) :: ps

/-- Modelled from the spec: `topo.ValidateShardName` (not under `src/`).
A name without `-` is a plain (unsharded) shard name and carries no key
range (`.ok none`); a range-based name `start-end` splits into exactly two
hex bounds, each possibly empty, parsed as the interval `[start, end)`. -/
def validateShardName (shard : String) : Except Unit (Option KeyRange) :=
  if !(shard.toList.any (fun c => c == '-')) then Except.ok none
  else
    match splitDash shard.toList with
    | [s, e] =>
      match parseHexChars s, parseHexChars e with
      | some sb, some eb => Except.ok (some ⟨sb, eb⟩)
      | _, _ => Except.error ()
    | _ => Except.error ()

/-- Strict lexicographic order on byte strings (`bytes.Compare < 0`). -/
def bytesLt : List Nat → List Nat → Bool
  | [], [] => false
  | [], _ :: _ => true
  | _ :: _, [] => false
  | a :: as, b :: bs =>
    if a < b then true else if b < a then false else bytesLt as bs

/-- Modelled from the spec: `key.KeyRangeIntersect` (not under `src/`).
Two half-open ranges overlap iff each starts below the other's end, an
empty end bound meaning "unbounded above". -/
def keyRangeIntersect (a b : KeyRange) : Bool :=
  (decide (b.kend = []) || bytesLt a.start b.kend) &&
    (decide (a.kend = []) || bytesLt b.start a.kend)

/-- The scan loop of `beingResharded` over the tracked shards (the list
order stands for one Go map iteration order): skip non-serving shards and
the current shard; an unparseable (or range-less) name returns false
immediately; an overlapping key range returns true. -/
def reshardScan (currentShard : String) (ckr : KeyRange) :
    List (String × shardState) → Bool
  | [] => false
  | (shard, sstate) :: rest =>
    if !sstate.serving || shard == currentShard then
      reshardScan currentShard ckr rest
    else
      match validateShardName shard with
      | Except.error _ => false
      | Except.ok none => false
      | Except.ok (some skr) =>
        if keyRangeIntersect ckr skr then true
        else reshardScan currentShard ckr rest

/-- Models `keyspaceState.beingResharded`. -/
def keyspaceState.beingResharded (kss : keyspaceState)
    (currentShard : String) : Bool :=
  if kss.deleted || kss.consistent ||
      (match kss.moveTablesState with
       | some m => decide (m.typ ≠ MoveTablesType.none)
       | none => false) then false
  else
    match validateShardName currentShard with
    | Except.error _ => false
    | Except.ok none => false
    | Except.ok (some ckr) => reshardScan currentShard ckr kss.shards

/-- Reachable keyspace states: freshly allocated, then driven by any
sequence of health-check, topology, vschema and mark-not-serving
callbacks. -/
inductive Reach : keyspaceState → Prop where
  | init (cell keyspace : String) : Reach (newKeyspaceState cell keyspace)
  | health {kss : keyspaceState} (th : TabletHealth) :
      Reach kss → Reach (kss.onHealthCheck th).1
  | srvKeyspace {kss : keyspaceState} (nk : Option SrvKeyspace)
      (ne : Option TopoError) : Reach kss → Reach (kss.onSrvKeyspace nk ne).1
  | srvVSchema {kss : keyspaceState} (vs : Option SrvVSchema)
      (cbErr : Option TopoError) (fetch : Except TopoError (List ShardInfo)) :
      Reach kss → Reach (kss.onSrvVSchema vs cbErr fetch).1
  | markNotServing {kss : keyspaceState} (shard : String) (b : Bool) :
      Reach kss → Reach (kss.markShardNotServing shard b).1

/-- The state payload carried by `consistent == true`: the PRIMARY
partition is known, carries no tablet controls, its shard-name set equals
the set of serving tracked shards, and `moveTablesState` is at most a
`None`-typed placeholder. -/
def ConsistentCore (kss : keyspaceState) : Prop :=
  ∃ p, primaryPartitionOf kss = some p ∧
    p.shardTabletControls = [] ∧
    (∀ n : String,
      (∃ sr ∈ p.shardReferences, sr.name = n) ↔
        ∃ st, findA kss.shards n = some st ∧ st.serving = true) ∧
    ∀ m, kss.moveTablesState = some m → m.typ = MoveTablesType.none

/-- The invariant attached to the `consistent` bit. -/
def ConsistentInv (kss : keyspaceState) : Prop :=
  kss.consistent = true → ConsistentCore kss

/-- Applies a sequence of health-check callbacks in order. -/
def applyHealthList (kss : keyspaceState) : List TabletHealth → keyspaceState
  | [] => kss
  | th :: rest => applyHealthList (kss.onHealthCheck th).1 rest

/-- The shard names declared by the PRIMARY partition of the last
topology snapshot. -/
def partitionRefNames (kss : keyspaceState) : List String :=
  match primaryPartitionOf kss with
  | some p => p.shardReferences.map (fun sr => sr.name)
  | none => []

/-- A keyspace-list entry that `WaitForConsistentKeyspaces` can process
without mutating the watcher: blank, or already tracked and not deleted. -/
def TrackedLive (kew : KeyspaceEventWatcher) (ks : String) : Prop :=
  ks = "" ∨ ∃ kss, findA kew.keyspaces ks = some kss ∧ kss.deleted = false

/-! ### Concrete instances used by counterexamples and witnesses -/

/-- A tracked shard with a known primary, used for the
`ShouldStartBufferingForTarget` claims. -/
def c1Shard : shardState :=
  { target := ⟨"ks", "-80", TabletType.primary⟩, serving := false,
    waitForReparent := false, externallyReparented := 5,
    currentPrimary := some ⟨"aa", 1⟩ }

/-- A keyspace state tracking the one non-serving shard. -/
def c1Kss : keyspaceState :=
  { newKeyspaceState "aa" "ks" with shards := [("-80", c1Shard)] }

/-- A watcher tracking one keyspace with one non-serving shard. -/
def c1Kew : KeyspaceEventWatcher := ⟨"aa", [("ks", c1Kss)]⟩

/-- A serving primary health report with a newer term start, used for the
monotonicity witness. -/
def c7th : TabletHealth :=
  ⟨⟨"ks", "-80", TabletType.primary⟩, true, ⟨"aa", 2⟩, 10⟩

/-- The shard state after `c1Kss` processes `c7th`. -/
def c7s : shardState :=
  ⟨⟨"ks", "-80", TabletType.primary⟩, true, false, 10, some ⟨"aa", 2⟩⟩

/-- A topology snapshot with an empty PRIMARY partition. -/
def c2Keyspace : SrvKeyspace := ⟨[⟨TabletType.primary, [], []⟩]⟩

/-- A reachable state: the empty-partition topology snapshot makes the
keyspace consistent, then a vschema callback with no routing rules runs. -/
def c2state : keyspaceState :=
  (((newKeyspaceState "aa" "ks").onSrvKeyspace (some c2Keyspace) none).1.onSrvVSchema
    (some ⟨[], []⟩) none (Except.ok [])).1

/-- A keyspace state amid a regular MoveTables, used for the
move-tables-error claim. -/
def c3state : keyspaceState :=
  { newKeyspaceState "aa" "ks" with
    moveTablesState := some ⟨MoveTablesType.regular, MoveTablesStatus.switching⟩ }

/-- A vschema with one routing rule, so that `getMoveTablesStatus`
consults the shard fetch. -/
def c3vs : SrvVSchema := ⟨[⟨"t", ["ks.t"]⟩], []⟩

/-- A vschema with one routing rule already pointing away from the
keyspace, used for the regular-MoveTables witness. -/
def c9vs : SrvVSchema := ⟨[⟨"t", ["otherks.t"]⟩], []⟩

/-- A fetched shard record with one denied table. -/
def c9sis : List ShardInfo := [⟨"-80", [⟨["t"]⟩]⟩]

/-- An empty watcher, used for the `WaitForConsistentKeyspaces` claims. -/
def c5Kew : KeyspaceEventWatcher := ⟨"aa", []⟩

/-- A keyspace already marked consistent. -/
def c5Kss2 : keyspaceState :=
  { newKeyspaceState "aa" "ks" with consistent := true }

/-- A watcher tracking one consistent keyspace. -/
def c5Kew2 : KeyspaceEventWatcher := ⟨"aa", [("ks", c5Kss2)]⟩

/-- A serving shard state over the named target shard. -/
def c6Shard (shard : String) : shardState :=
  { target := ⟨"ks", shard, TabletType.primary⟩, serving := true,
    waitForReparent := false, externallyReparented := 0,
    currentPrimary := none }

/-- An inconsistent keyspace whose scan order meets a serving shard
without a key range ("0") before the overlapping serving shard "-40". -/
def c6state : keyspaceState :=
  { newKeyspaceState "aa" "ks" with
    shards := [("0", c6Shard "0"), ("-40", c6Shard "-40")] }

/-- A latched, non-serving shard state (as left by
`MarkShardNotServing(_, _, _, true)`). -/
def c4Shard : shardState :=
  { target := ⟨"ks", "-80", TabletType.primary⟩, serving := false,
    waitForReparent := true, externallyReparented := 5,
    currentPrimary := some ⟨"aa", 1⟩ }

/-- A keyspace whose PRIMARY partition declares "-80" and whose tracked
"-80" shard is latched. -/
def c4Kss : keyspaceState :=
  { newKeyspaceState "aa" "ks" with
    lastKeyspace := some ⟨[⟨TabletType.primary, [⟨"-80"⟩], []⟩]⟩,
    shards := [("-80", c4Shard)] }

/-- A stale serving report from the demoted primary (term start not newer
than the stored one). -/
def c4th : TabletHealth :=
  ⟨⟨"ks", "-80", TabletType.primary⟩, true, ⟨"aa", 3⟩, 5⟩

/-- An inconsistent keyspace with only the overlapping serving shard
"-40", used for the resharding witness. -/
def c6good : keyspaceState :=
  { newKeyspaceState "aa" "ks" with shards := [("-40", c6Shard "-40")] }

/-! ### Association-list lemmas -/

theorem findA_insertA_self {α : Type} (m : List (String × α)) (k : String)
    (v : α) : findA (insertA m k v) k = some v := by
  induction m with
  | nil => simp [insertA, findA]
  | cons hd tl ih =>
    obtain ⟨k', v'⟩ := hd
    by_cases h : k' = k
    · simp [insertA, h, findA]
    · simp [insertA, h, findA, ih]

theorem findA_insertA_ne {α : Type} (m : List (String × α)) (k k' : String)
    (v : α) (h : k' ≠ k) : findA (insertA m k v) k' = findA m k' := by
  have hk : k ≠ k' := Ne.symm h
  induction m with
  | nil => simp [insertA, findA, hk]
  | cons hd tl ih =>
    obtain ⟨k0, v0⟩ := hd
    by_cases h0 : k0 = k
    · subst h0
      simp [insertA, findA, hk]
    · simp only [insertA, if_neg h0, findA]
      by_cases h1 : k0 = k'
      · simp [h1]
      · simp [h1, ih]

theorem findA_mem {α : Type} {m : List (String × α)} {k : String} {v : α}
    (h : findA m k = some v) : (k, v) ∈ m := by
  induction m with
  | nil => simp [findA] at h
  | cons hd tl ih =>
    obtain ⟨k0, v0⟩ := hd
    by_cases h0 : k0 = k
    · subst h0
      simp [findA] at h
      subst h
      exact List.mem_cons_self _ _
    · simp [findA, h0] at h
      exact List.mem_cons_of_mem _ (ih h)

theorem findA_filter_of_serving (m : List (String × shardState)) (k : String)
    (v : shardState) (hf : findA m k = some v) (hs : v.serving = true) :
    findA (m.filter (fun pr => pr.2.serving)) k = some v := by
  induction m with
  | nil => simp [findA] at hf
  | cons hd tl ih =>
    obtain ⟨k0, v0⟩ := hd
    by_cases h0 : k0 = k
    · subst h0
      simp [findA] at hf
      subst hf
      simp [List.filter, hs, findA]
    · simp [findA, h0] at hf
      by_cases h1 : v0.serving
      · simpa [List.filter, h1, findA, h0] using ih hf
      · simpa [List.filter, h1] using ih hf

theorem findA_filter_mem {α : Type} {p : String × α → Bool}
    {m : List (String × α)} {k : String} {v : α}
    (h : findA (m.filter p) k = some v) : (k, v) ∈ m ∧ p (k, v) = true := by
  have hm := findA_mem h
  exact ⟨(List.mem_filter.mp hm).1, (List.mem_filter.mp hm).2⟩

/-! ### `ensureConsistentLocked` structural lemmas -/

theorem ensure_of_consistent (kss : keyspaceState)
    (h : kss.consistent = true) :
    kss.ensureConsistentLocked = (kss, none) := by
  simp [keyspaceState.ensureConsistentLocked, h]

theorem ensure_dichotomy (kss : keyspaceState) :
    (kss.ensureConsistentLocked).1 = kss ∨
      (∃ p, primaryPartitionOf kss = some p ∧
        p.shardTabletControls = [] ∧
        allRefsServing p.shardReferences kss.shards = true ∧
        allServingInRefs p.shardReferences kss.shards = true ∧
        (kss.ensureConsistentLocked).1 =
          { kss with
            consistent := true,
            moveTablesState := none,
            shards := kss.shards.filter (fun pr => pr.2.serving) }) := by
  unfold keyspaceState.ensureConsistentLocked
  by_cases h1 : kss.consistent
  · simp [h1]
  · simp only [h1, if_false, Bool.false_eq_true]
    by_cases h2 : mtsBlocked kss.moveTablesState
    · simp [h2]
    · simp only [h2, if_false, Bool.false_eq_true]
      cases hp : primaryPartitionOf kss with
      | none => simp
      | some p =>
        simp only
        by_cases h3 : p.shardTabletControls.length > 0
        · simp [h3]
        · simp only [h3, if_false]
          by_cases h4 : allRefsServing p.shardReferences kss.shards &&
              allServingInRefs p.shardReferences kss.shards
          · right
            refine ⟨p, rfl, ?_, ?_, ?_, ?_⟩
            · exact List.length_eq_zero.mp (Nat.eq_zero_of_not_pos h3)
            · exact (Bool.and_eq_true _ _ |>.mp h4).1
            · exact (Bool.and_eq_true _ _ |>.mp h4).2
            · simp [h4]
          · simp [h4]

/-! ### Lemmas about the health-check shard transition -/

theorem servingSwitch_fields (s : shardState) (c : Bool) (th : TabletHealth) :
    (servingSwitch s c th).1.target = s.target ∧
    (servingSwitch s c th).1.externallyReparented = s.externallyReparented ∧
    (servingSwitch s c th).1.currentPrimary = s.currentPrimary := by
  unfold servingSwitch
  by_cases h : s.serving ≠ th.serving
  · simp only [if_pos h]
    by_cases h1 : th.serving && s.waitForReparent
    · simp only [if_pos h1]
      by_cases h2 : th.primaryTermStartTime > s.externallyReparented
      · simp [h2]
      · simp [h2]
    · simp only [if_neg h1]
      by_cases h2 : th.serving
      · simp [h2]
      · simp [h2]
  · simp [h]

theorem servingSwitch_consistent_true (s : shardState) (c : Bool)
    (th : TabletHealth) (h : (servingSwitch s c th).2 = true) :
    c = true ∧ (servingSwitch s c th).1 = s := by
  unfold servingSwitch at h ⊢
  by_cases hs : s.serving ≠ th.serving
  · simp [hs] at h
  · rw [if_neg hs] at h ⊢
    exact ⟨h, rfl⟩

theorem clearWaitOnNotServing_fields (s : shardState) (th : TabletHealth) :
    (clearWaitOnNotServing s th).target = s.target ∧
    (clearWaitOnNotServing s th).serving = s.serving ∧
    (clearWaitOnNotServing s th).externallyReparented =
      s.externallyReparented ∧
    (clearWaitOnNotServing s th).currentPrimary = s.currentPrimary := by
  unfold clearWaitOnNotServing
  by_cases h : th.serving
  · simp [h]
  · simp [h]

theorem reparentDetect_fields (s : shardState) (c : Bool)
    (th : TabletHealth) :
    (reparentDetect s c th).1.target = s.target ∧
    (reparentDetect s c th).1.serving = s.serving ∧
    (reparentDetect s c th).1.waitForReparent = s.waitForReparent := by
  unfold reparentDetect
  by_cases h : th.primaryTermStartTime ≠ 0 ∧
      th.primaryTermStartTime > s.externallyReparented
  · simp [h]
  · simp [h]

theorem reparentDetect_consistent_true (s : shardState) (c : Bool)
    (th : TabletHealth) (h : (reparentDetect s c th).2 = true) :
    c = true ∧ (reparentDetect s c th).1 = s := by
  unfold reparentDetect at h ⊢
  by_cases hc : th.primaryTermStartTime ≠ 0 ∧
      th.primaryTermStartTime > s.externallyReparented
  · simp [hc] at h
  · rw [if_neg hc] at h ⊢
    exact ⟨h, rfl⟩

theorem reparentDetect_mono (s : shardState) (c : Bool) (th : TabletHealth) :
    ((reparentDetect s c th).1.externallyReparented = s.externallyReparented ∧
      (reparentDetect s c th).1.currentPrimary = s.currentPrimary) ∨
    (s.externallyReparented < th.primaryTermStartTime ∧
      th.primaryTermStartTime ≠ 0 ∧
      (reparentDetect s c th).1.externallyReparented =
        th.primaryTermStartTime ∧
      (reparentDetect s c th).1.currentPrimary = some th.tablet) := by
  unfold reparentDetect
  by_cases h : th.primaryTermStartTime ≠ 0 ∧
      th.primaryTermStartTime > s.externallyReparented
  · right
    simp [h, h.2, h.1]
  · left
    simp [h]

theorem healthTransition_consistent_true (s : shardState) (c : Bool)
    (th : TabletHealth) (h : (healthTransition s c th).2 = true) :
    c = true ∧
    (healthTransition s c th).1.target = s.target ∧
    (healthTransition s c th).1.serving = s.serving ∧
    (healthTransition s c th).1.externallyReparented =
      s.externallyReparented ∧
    (healthTransition s c th).1.currentPrimary = s.currentPrimary := by
  simp only [healthTransition] at h ⊢
  obtain ⟨h2, heq⟩ := reparentDetect_consistent_true _ _ _ h
  obtain ⟨hc, hs⟩ := servingSwitch_consistent_true s c th h2
  rw [heq, hs]
  obtain ⟨ct, cs, ce, cp⟩ := clearWaitOnNotServing_fields s th
  exact ⟨hc, ct, cs, ce, cp⟩

/-! ### The consistency invariant is established by `ensureConsistentLocked` -/

theorem allRefsServing_find {refs : List ShardReference}
    {shards : List (String × shardState)}
    (h : allRefsServing refs shards = true) {sr : ShardReference}
    (hm : sr ∈ refs) :
    ∃ st, findA shards sr.name = some st ∧ st.serving = true := by
  have := List.all_eq_true.mp h sr hm
  cases hf : findA shards sr.name with
  | none => rw [hf] at this; simp at this
  | some st => rw [hf] at this; exact ⟨st, rfl, this⟩

theorem allServingInRefs_find {refs : List ShardReference}
    {shards : List (String × shardState)}
    (h : allServingInRefs refs shards = true) {k : String} {v : shardState}
    (hm : (k, v) ∈ shards) (hs : v.serving = true) :
    ∃ sr ∈ refs, sr.name = k := by
  have h1 := List.all_eq_true.mp h (k, v) hm
  rw [Bool.or_eq_true] at h1
  cases h1 with
  | inl h1 => simp [hs] at h1
  | inr h1 =>
    obtain ⟨sr, hsr, hname⟩ := List.any_eq_true.mp h1
    exact ⟨sr, hsr, by simpa using hname⟩

theorem ensure_preserves_inv (kss : keyspaceState)
    (h : ConsistentInv kss) : ConsistentInv (kss.ensureConsistentLocked).1 := by
  rcases ensure_dichotomy kss with heq | ⟨p, hp, hc, hcov, hin, heq⟩
  · rw [heq]; exact h
  · rw [heq]
    intro _
    refine ⟨p, ?_, hc, ?_, ?_⟩
    · simpa [primaryPartitionOf] using hp
    · intro n
      constructor
      · rintro ⟨sr, hsr, rfl⟩
        obtain ⟨st, hfind, hserv⟩ := allRefsServing_find hcov hsr
        exact ⟨st, findA_filter_of_serving _ _ _ hfind hserv, hserv⟩
      · rintro ⟨st, hfind, hserv⟩
        obtain ⟨hmem, _⟩ := findA_filter_mem hfind
        exact allServingInRefs_find hin hmem hserv
    · intro m hm
      simp at hm

/-- `ensureConsistentLocked` never touches the identity fields, the
topology snapshot, the deletion mark or the last error. -/
theorem ensure_frame (kss : keyspaceState) :
    (kss.ensureConsistentLocked).1.cell = kss.cell ∧
    (kss.ensureConsistentLocked).1.keyspace = kss.keyspace ∧
    (kss.ensureConsistentLocked).1.deleted = kss.deleted ∧
    (kss.ensureConsistentLocked).1.lastError = kss.lastError ∧
    (kss.ensureConsistentLocked).1.lastKeyspace = kss.lastKeyspace := by
  rcases ensure_dichotomy kss with heq | ⟨p, _, _, _, _, heq⟩ <;>
    rw [heq] <;> exact ⟨rfl, rfl, rfl, rfl, rfl⟩

/-! ### The consistency invariant is preserved by every callback -/

theorem core_congr (kss kss' : keyspaceState)
    (hp : primaryPartitionOf kss' = primaryPartitionOf kss)
    (hm : kss'.moveTablesState = kss.moveTablesState)
    (hs : ∀ n, (∃ st, findA kss'.shards n = some st ∧ st.serving = true) ↔
      ∃ st, findA kss.shards n = some st ∧ st.serving = true)
    (h : ConsistentCore kss) : ConsistentCore kss' := by
  obtain ⟨p, hpp, hcc, hset, hmts⟩ := h
  refine ⟨p, hp.trans hpp, hcc, ?_, ?_⟩
  · intro n
    exact (hset n).trans (hs n).symm
  · intro m hmm
    exact hmts m (hm ▸ hmm)

theorem servingSwitch_serving_eq (s : shardState) (c : Bool)
    (th : TabletHealth) (h : (servingSwitch s c th).2 = true) :
    s.serving = th.serving := by
  unfold servingSwitch at h
  by_cases hs : s.serving ≠ th.serving
  · simp [hs] at h
  · exact not_ne_iff.mp hs

theorem healthTransition_serving_eq (s : shardState) (c : Bool)
    (th : TabletHealth) (h : (healthTransition s c th).2 = true) :
    s.serving = th.serving := by
  simp only [healthTransition] at h
  exact servingSwitch_serving_eq s c th
    (reparentDetect_consistent_true _ _ _ h).1

theorem inv_onHealthCheck (kss : keyspaceState) (th : TabletHealth)
    (h : ConsistentInv kss) : ConsistentInv (kss.onHealthCheck th).1 := by
  unfold keyspaceState.onHealthCheck
  by_cases ht : th.target.tabletType ≠ TabletType.primary
  · simp only [if_pos ht]; exact h
  · simp only [if_neg ht]
    cases hf : findA kss.shards th.target.shard with
    | none =>
      by_cases hsv : th.serving
      · rw [if_neg (by simp [hsv])]
        apply ensure_preserves_inv
        intro hc
        simp only at hc
        have := healthTransition_serving_eq _ _ _ hc
        rw [hsv] at this
        simp at this
      · simp only [hsv, Bool.not_false, if_pos rfl]
        exact h
    | some sstate =>
      simp only
      apply ensure_preserves_inv
      intro hc
      simp only at hc
      obtain ⟨hco, _, hserv, _, _⟩ :=
        healthTransition_consistent_true sstate kss.consistent th hc
      have hcore := h hco
      apply core_congr kss
      · simp [primaryPartitionOf]
      · rfl
      · intro n
        by_cases hn : n = th.target.shard
        · subst hn
          simp only [findA_insertA_self]
          constructor
          · rintro ⟨st, hst, hstv⟩
            cases hst
            exact ⟨sstate, hf, by rw [← hserv]; exact hstv⟩
          · rintro ⟨st, hst, hstv⟩
            rw [hf] at hst
            cases hst
            exact ⟨_, rfl, by rw [hserv]; exact hstv⟩
        · rw [findA_insertA_ne _ _ _ _ hn]
      · exact hcore

theorem inv_onSrvKeyspace (kss : keyspaceState) (nk : Option SrvKeyspace)
    (ne : Option TopoError) (h : ConsistentInv kss) :
    ConsistentInv (kss.onSrvKeyspace nk ne).1 := by
  unfold keyspaceState.onSrvKeyspace
  by_cases h1 : ne = some TopoError.noNode
  · simp only [if_pos h1]
    intro hc
    exact core_congr _ kss (by simp [primaryPartitionOf]) rfl
      (fun n => Iff.rfl) (h hc)
  · simp only [if_neg h1]
    cases ne with
    | some e =>
      simp only
      intro hc
      exact core_congr _ kss (by simp [primaryPartitionOf]) rfl
        (fun n => Iff.rfl) (h hc)
    | none =>
      simp only
      by_cases h2 : kss.lastKeyspace = nk
      · simp only [if_pos h2]; exact h
      · simp only [if_neg h2]
        apply ensure_preserves_inv
        intro hc
        simp only at hc
        by_cases h3 : kss.lastKeyspace.bind
            (fun sk => srvKeyspaceGetPartition sk TabletType.primary) ≠
            nk.bind (fun sk => srvKeyspaceGetPartition sk TabletType.primary)
        · rw [if_pos h3] at hc; exact absurd hc (by simp)
        · rw [if_neg h3] at hc
          have hcore := h hc
          apply core_congr kss
          · simp only [primaryPartitionOf]
            exact (not_ne_iff.mp h3).symm
          · rfl
          · intro n; exact Iff.rfl
          · exact hcore

theorem inv_onSrvVSchema (kss : keyspaceState) (vs : Option SrvVSchema)
    (cbErr : Option TopoError) (fetch : Except TopoError (List ShardInfo))
    (h : ConsistentInv kss) : ConsistentInv (kss.onSrvVSchema vs cbErr fetch).1 := by
  unfold keyspaceState.onSrvVSchema
  cases vs with
  | none => exact h
  | some vs =>
    simp only
    by_cases hmt : (kss.getMoveTablesStatus vs fetch).1.typ ≠ MoveTablesType.none
    · simp only [if_pos hmt]
      apply ensure_preserves_inv
      intro hc
      simp at hc
    · simp only [if_neg hmt]
      intro hc
      simp only at hc
      obtain ⟨p, hpp, hcc, hset, _⟩ := h hc
      refine ⟨p, ?_, hcc, ?_, ?_⟩
      · simpa [primaryPartitionOf] using hpp
      · exact hset
      · intro m hm
        simp only at hm
        cases hm
        exact not_ne_iff.mp hmt

theorem inv_markShardNotServing (kss : keyspaceState) (shard : String)
    (b : Bool) (h : ConsistentInv kss) :
    ConsistentInv (kss.markShardNotServing shard b).1 := by
  unfold keyspaceState.markShardNotServing
  cases hf : findA kss.shards shard with
  | none => exact h
  | some sstate =>
    intro hc
    simp at hc

/-- Every reachable keyspace state satisfies the consistency invariant. -/
theorem reach_inv {kss : keyspaceState} (h : Reach kss) : ConsistentInv kss := by
  induction h with
  | init cell keyspace => intro hc; simp [newKeyspaceState] at hc
  | health th _ ih => exact inv_onHealthCheck _ th ih
  | srvKeyspace nk ne _ ih => exact inv_onSrvKeyspace _ nk ne ih
  | srvVSchema vs cbErr fetch _ ih => exact inv_onSrvVSchema _ vs cbErr fetch ih
  | markNotServing shard b _ ih => exact inv_markShardNotServing _ shard b ih

/-! ### Key-uniqueness lemmas (Go maps cannot hold duplicate keys) -/

theorem insertA_cons_eq {α : Type} (k : String) (v v0 : α)
    (tl : List (String × α)) :
    insertA ((k, v0) :: tl) k v = (k, v) :: tl := by
  simp [insertA]

theorem insertA_cons_ne {α : Type} {k0 k : String} (h : k0 ≠ k) (v0 v : α)
    (tl : List (String × α)) :
    insertA ((k0, v0) :: tl) k v = (k0, v0) :: insertA tl k v := by
  simp [insertA, h]

theorem findA_eq_none {α : Type} {m : List (String × α)} {k : String}
    (h : k ∉ m.map Prod.fst) : findA m k = none := by
  induction m with
  | nil => rfl
  | cons hd tl ih =>
    obtain ⟨k0, v0⟩ := hd
    simp only [List.map_cons, List.mem_cons, not_or] at h
    have hne : k0 ≠ k := Ne.symm h.1
    simp only [findA, if_neg hne]
    exact ih h.2

theorem keys_filter_subset {α : Type} {q : String × α → Bool}
    {m : List (String × α)} {k : String}
    (h : k ∈ (m.filter q).map Prod.fst) : k ∈ m.map Prod.fst := by
  obtain ⟨p, hp, hk⟩ := List.mem_map.mp h
  exact List.mem_map.mpr ⟨p, (List.mem_filter.mp hp).1, hk⟩

theorem mem_keys_insertA {α : Type} {m : List (String × α)} {k k0 : String}
    {v : α} (h : k0 ∈ (insertA m k v).map Prod.fst) :
    k0 ∈ m.map Prod.fst ∨ k0 = k := by
  induction m with
  | nil =>
    right
    simpa [insertA] using h
  | cons hd tl ih =>
    obtain ⟨k1, v1⟩ := hd
    by_cases h1 : k1 = k
    · subst h1
      rw [insertA_cons_eq] at h
      simp only [List.map_cons, List.mem_cons] at h
      rcases h with h | h
      · exact Or.inr h
      · exact Or.inl (List.mem_cons_of_mem _ h)
    · rw [insertA_cons_ne h1] at h
      simp only [List.map_cons, List.mem_cons] at h
      rcases h with h | h
      · exact Or.inl (List.mem_cons.mpr (Or.inl h))
      · rcases ih h with h2 | h2
        · exact Or.inl (List.mem_cons_of_mem _ h2)
        · exact Or.inr h2

theorem insertA_keys_nodup {α : Type} {m : List (String × α)}
    (h : (m.map Prod.fst).Nodup) (k : String) (v : α) :
    ((insertA m k v).map Prod.fst).Nodup := by
  induction m with
  | nil => simp [insertA]
  | cons hd tl ih =>
    obtain ⟨k0, v0⟩ := hd
    simp only [List.map_cons, List.nodup_cons] at h
    by_cases h0 : k0 = k
    · subst h0
      rw [insertA_cons_eq]
      simp only [List.map_cons, List.nodup_cons]
      exact h
    · rw [insertA_cons_ne h0]
      simp only [List.map_cons, List.nodup_cons]
      refine ⟨?_, ih h.2⟩
      intro hmem
      rcases mem_keys_insertA hmem with h2 | h2
      · exact h.1 h2
      · exact h0 h2

theorem findA_filter_nodup {α : Type} {m : List (String × α)}
    (h : (m.map Prod.fst).Nodup) (q : String × α → Bool) (k : String)
    (v : α) (hf : findA m k = some v) :
    findA (m.filter q) k = if q (k, v) then some v else none := by
  induction m with
  | nil => simp [findA] at hf
  | cons hd tl ih =>
    obtain ⟨k0, v0⟩ := hd
    simp only [List.map_cons, List.nodup_cons] at h
    by_cases h0 : k0 = k
    · subst h0
      have hv : v0 = v := by simpa [findA] using hf
      subst hv
      by_cases hq : q (k0, v0) = true
      · simp [List.filter_cons, hq, findA]
      · rw [List.filter_cons, if_neg (by simpa using hq), if_neg (by simpa using hq)]
        exact findA_eq_none (fun hm => h.1 (keys_filter_subset hm))
    · simp only [findA, if_neg h0] at hf
      by_cases hq0 : q (k0, v0) = true
      · rw [List.filter_cons, if_pos (by simpa using hq0)]
        simp only [findA, if_neg h0]
        exact ih h.2 hf
      · rw [List.filter_cons, if_neg (by simpa using hq0)]
        exact ih h.2 hf

/-! ### `getKeyspaceStatus` behaviour -/

theorem getKeyspaceStatus_tracked (kew : KeyspaceEventWatcher) (ks : String)
    (kss : keyspaceState) (hf : findA kew.keyspaces ks = some kss)
    (hd : kss.deleted = false) :
    kew.getKeyspaceStatus ks = (kew, some kss) := by
  unfold KeyspaceEventWatcher.getKeyspaceStatus
  rw [hf]
  simp [hd]

theorem getKeyspaceStatus_deleted (kew : KeyspaceEventWatcher) (ks : String)
    (kss : keyspaceState) (hf : findA kew.keyspaces ks = some kss)
    (hd : kss.deleted = true) :
    (kew.getKeyspaceStatus ks).2 = none := by
  unfold KeyspaceEventWatcher.getKeyspaceStatus
  rw [hf]
  simp [hd]

theorem getKeyspaceStatus_fresh (kew : KeyspaceEventWatcher) (ks : String)
    (hf : findA kew.keyspaces ks = none) :
    kew.getKeyspaceStatus ks =
      ({ kew with
          keyspaces := insertA kew.keyspaces ks
            (newKeyspaceState kew.localCell ks) },
        some (newKeyspaceState kew.localCell ks)) := by
  unfold KeyspaceEventWatcher.getKeyspaceStatus
  rw [hf]
  simp [newKeyspaceState]

/-! ### Claim C1: `ShouldStartBufferingForTarget` -/

theorem ssb_not_primary (kew : KeyspaceEventWatcher) (target : Target)
    (h : target.tabletType ≠ TabletType.primary) :
    kew.ShouldStartBufferingForTarget target = (kew, none, false) := by
  unfold KeyspaceEventWatcher.ShouldStartBufferingForTarget
  rw [if_pos h]

theorem ssb_fresh (kew : KeyspaceEventWatcher) (target : Target)
    (hp : target.tabletType = TabletType.primary)
    (hk : findA kew.keyspaces target.keyspace = none) :
    (kew.ShouldStartBufferingForTarget target).2 = (none, false) := by
  unfold KeyspaceEventWatcher.ShouldStartBufferingForTarget
  rw [if_neg (by simp [hp]), getKeyspaceStatus_fresh kew _ hk]
  simp [newKeyspaceState, findA]

theorem ssb_deleted (kew : KeyspaceEventWatcher) (target : Target)
    (kss : keyspaceState) (hp : target.tabletType = TabletType.primary)
    (hk : findA kew.keyspaces target.keyspace = some kss)
    (hd : kss.deleted = true) :
    (kew.ShouldStartBufferingForTarget target).2 = (none, false) := by
  unfold KeyspaceEventWatcher.ShouldStartBufferingForTarget
  rw [if_neg (by simp [hp])]
  have h2 := getKeyspaceStatus_deleted kew target.keyspace kss hk hd
  cases hg : kew.getKeyspaceStatus target.keyspace with
  | mk kew1 o =>
    rw [hg] at h2
    simp only at h2
    subst h2
    rfl

theorem ssb_tracked_shard (kew : KeyspaceEventWatcher) (target : Target)
    (kss : keyspaceState) (st : shardState)
    (hp : target.tabletType = TabletType.primary)
    (hk : findA kew.keyspaces target.keyspace = some kss)
    (hd : kss.deleted = false)
    (hs : findA kss.shards target.shard = some st) :
    kew.ShouldStartBufferingForTarget target =
      (kew, st.currentPrimary,
        !st.serving && !kss.consistent &&
          decide (st.externallyReparented ≠ 0) &&
          st.currentPrimary.isSome) := by
  unfold KeyspaceEventWatcher.ShouldStartBufferingForTarget
  rw [if_neg (by simp [hp]), getKeyspaceStatus_tracked kew _ kss hk hd]
  dsimp only
  rw [hs]

theorem ssb_tracked_noshard (kew : KeyspaceEventWatcher) (target : Target)
    (kss : keyspaceState)
    (hp : target.tabletType = TabletType.primary)
    (hk : findA kew.keyspaces target.keyspace = some kss)
    (hd : kss.deleted = false)
    (hs : findA kss.shards target.shard = none) :
    kew.ShouldStartBufferingForTarget target = (kew, none, false) := by
  unfold KeyspaceEventWatcher.ShouldStartBufferingForTarget
  rw [if_neg (by simp [hp]), getKeyspaceStatus_tracked kew _ kss hk hd]
  dsimp only
  rw [hs]

/-- C1 (amended): the boolean result of `ShouldStartBufferingForTarget`
is true iff the target's tablet type is PRIMARY, the keyspace is tracked
and not deleted, the shard is in the keyspace's shard map, and that shard
state has a non-nil `currentPrimary`, `externallyReparented != 0`,
`serving == false` and the keyspace's `consistent` bit false; and — for a
PRIMARY target whose keyspace is tracked and not deleted — whenever the
shard is tracked, the returned alias is the shard's stored
`currentPrimary`, regardless of the boolean. -/
theorem shouldStartBuffering_spec (kew : KeyspaceEventWatcher)
    (target : Target) :
    ((kew.ShouldStartBufferingForTarget target).2.2 = true ↔
      target.tabletType = TabletType.primary ∧
        ∃ kss, findA kew.keyspaces target.keyspace = some kss ∧
          kss.deleted = false ∧
          ∃ st, findA kss.shards target.shard = some st ∧
            st.currentPrimary.isSome = true ∧
            st.externallyReparented ≠ 0 ∧
            st.serving = false ∧ kss.consistent = false) ∧
    (target.tabletType = TabletType.primary →
      ∀ kss, findA kew.keyspaces target.keyspace = some kss →
        kss.deleted = false →
        ∀ st, findA kss.shards target.shard = some st →
          (kew.ShouldStartBufferingForTarget target).2.1 =
            st.currentPrimary) := by
  by_cases ht : target.tabletType = TabletType.primary
  · cases hk : findA kew.keyspaces target.keyspace with
    | none =>
      have he := ssb_fresh kew target ht hk
      constructor
      · constructor
        · intro hb
          rw [he] at hb
          simp at hb
        · rintro ⟨-, kss, hkss, -⟩
          exact absurd hkss (by simp)
      · intro _ kss hkss
        exact absurd hkss (by simp)
    | some kss =>
      cases hd : kss.deleted with
      | true =>
        have he := ssb_deleted kew target kss ht hk hd
        constructor
        · constructor
          · intro hb
            rw [he] at hb
            simp at hb
          · rintro ⟨-, kss', hkss', hd', -⟩
            injection hkss' with hkss'
            subst hkss'
            rw [hd] at hd'
            exact absurd hd' (by simp)
        · intro _ kss' hkss' hd'
          injection hkss' with hkss'
          subst hkss'
          rw [hd] at hd'
          exact absurd hd' (by simp)
      | false =>
        cases hs : findA kss.shards target.shard with
        | none =>
          have he := ssb_tracked_noshard kew target kss ht hk hd hs
          constructor
          · constructor
            · intro hb
              rw [he] at hb
              simp at hb
            · rintro ⟨-, kss', hkss', -, st, hst, -⟩
              injection hkss' with hkss'
              subst hkss'
              rw [hs] at hst
              exact absurd hst (by simp)
          · intro _ kss' hkss' _ st hst
            injection hkss' with hkss'
            subst hkss'
            rw [hs] at hst
            exact absurd hst (by simp)
        | some st =>
          have he := ssb_tracked_shard kew target kss st ht hk hd hs
          constructor
          · constructor
            · intro hb
              rw [he] at hb
              simp only [Bool.and_eq_true, Bool.not_eq_true',
                decide_eq_true_eq] at hb
              exact ⟨ht, kss, rfl, hd, st, hs, hb.2, hb.1.2, hb.1.1.1,
                hb.1.1.2⟩
            · rintro ⟨-, kss', hkss', -, st', hst', hcp, her, hsv, hcons⟩
              injection hkss' with hkss'
              subst hkss'
              rw [hs] at hst'
              injection hst' with hst'
              subst hst'
              rw [he]
              simp [hsv, hcons, her, hcp]
          · intro _ kss' hkss' _ st' hst'
            injection hkss' with hkss'
            subst hkss'
            rw [hs] at hst'
            injection hst' with hst'
            subst hst'
            rw [he]
  · refine ⟨⟨?_, ?_⟩, ?_⟩
    · intro hb
      rw [ssb_not_primary kew target ht] at hb
      simp at hb
    · rintro ⟨hp, -⟩
      exact absurd hp ht
    · intro hp
      exact absurd hp ht

/-- C1 counterexample: for a tracked shard with a stored primary alias
but a REPLICA target tablet type, the returned alias is nil, not the
stored `currentPrimary` — the "returns the alias regardless of the bool"
clause fails for non-PRIMARY targets. -/
theorem shouldStartBuffering_alias_cex :
    (c1Kew.ShouldStartBufferingForTarget
        ⟨"ks", "-80", TabletType.replica⟩).2.1 = none ∧
    findA c1Kew.keyspaces "ks" = some c1Kss ∧
    findA c1Kss.shards "-80" = some c1Shard ∧
    c1Shard.currentPrimary = some ⟨"aa", 1⟩ ∧
    (none : Option TabletAlias) ≠ some ⟨"aa", 1⟩ := by
  exact ⟨by decide, by decide, by decide, by decide, by decide⟩

/-- C1 witness: the amended theorem evaluated on a concrete tracked
non-serving shard with a primary. -/
theorem shouldStartBuffering_spec_witness :
    (c1Kew.ShouldStartBufferingForTarget
        ⟨"ks", "-80", TabletType.primary⟩).2.2 = true ∧
    (c1Kew.ShouldStartBufferingForTarget
        ⟨"ks", "-80", TabletType.primary⟩).2.1 = some ⟨"aa", 1⟩ := by
  have h := shouldStartBuffering_spec c1Kew ⟨"ks", "-80", TabletType.primary⟩
  constructor
  · exact h.1.mpr ⟨rfl, c1Kss, by decide, by decide, c1Shard, by decide,
      by decide, by decide, by decide, by decide⟩
  · have h2 := h.2 rfl c1Kss (by decide) (by decide) c1Shard (by decide)
    rw [h2]
    decide

/-! ### Claim C2: the consistency invariant -/

/-- C2 (amended): over all event sequences, whenever a keyspace state has
`consistent == true`, the PRIMARY partition of its `lastKeyspace` exists,
carries no `ShardTabletControls`, its shard-name set equals the set of
shard names whose tracked shard state has `serving == true`, and
`moveTablesState` is either nil or a placeholder of type `None` (the
callback `onSrvVSchema` installs a non-nil `(None, Unknown)` value even on
a consistent keyspace, so plain nil-ness does not hold). -/
theorem consistent_invariant {kss : keyspaceState} (h : Reach kss)
    (hc : kss.consistent = true) :
    ∃ p, primaryPartitionOf kss = some p ∧
      p.shardTabletControls = [] ∧
      (∀ n : String,
        (∃ sr ∈ p.shardReferences, sr.name = n) ↔
          ∃ st, findA kss.shards n = some st ∧ st.serving = true) ∧
      ∀ m, kss.moveTablesState = some m → m.typ = MoveTablesType.none :=
  reach_inv h hc

/-- C2 counterexample: a reachable state that is consistent but holds a
non-nil `moveTablesState` (of type `None`), refuting the "moveTablesState
is nil" conjunct of the claim. -/
theorem consistent_invariant_cex :
    Reach c2state ∧ c2state.consistent = true ∧
      c2state.moveTablesState ≠ none := by
  refine ⟨?_, by decide, by decide⟩
  exact Reach.srvVSchema _ _ _ (Reach.srvKeyspace _ _ (Reach.init "aa" "ks"))

/-- C2 witness: the amended invariant evaluated on the concrete reachable
consistent state. -/
theorem consistent_invariant_witness :
    c2state.consistent = true ∧
      ∃ p, primaryPartitionOf c2state = some p ∧
        p.shardTabletControls = [] ∧
        (∀ n : String,
          (∃ sr ∈ p.shardReferences, sr.name = n) ↔
            ∃ st, findA c2state.shards n = some st ∧ st.serving = true) ∧
        ∀ m, c2state.moveTablesState = some m →
          m.typ = MoveTablesType.none := by
  refine ⟨by decide, ?_⟩
  exact consistent_invariant
    (Reach.srvVSchema _ _ _ (Reach.srvKeyspace _ _ (Reach.init "aa" "ks")))
    (by decide)

/-! ### Case analysis helpers for `onHealthCheck` and `ensureConsistentLocked` -/

theorem onHealthCheck_cases (kss : keyspaceState) (th : TabletHealth) :
    (kss.onHealthCheck th).1 = kss ∨
    ∃ s0, (findA kss.shards th.target.shard = some s0 ∨
        (findA kss.shards th.target.shard = none ∧ th.serving = true ∧
          s0 = { target := th.target, serving := false,
                 waitForReparent := false, externallyReparented := 0,
                 currentPrimary := none })) ∧
      th.target.tabletType = TabletType.primary ∧
      (kss.onHealthCheck th).1 =
        (keyspaceState.ensureConsistentLocked
          { kss with
            consistent := (healthTransition s0 kss.consistent th).2,
            shards := insertA kss.shards th.target.shard
              (healthTransition s0 kss.consistent th).1 }).1 := by
  unfold keyspaceState.onHealthCheck
  by_cases ht : th.target.tabletType ≠ TabletType.primary
  · rw [if_pos ht]
    exact Or.inl rfl
  · rw [if_neg ht]
    have hp : th.target.tabletType = TabletType.primary := not_ne_iff.mp ht
    cases hcase : findA kss.shards th.target.shard with
    | none =>
      by_cases hsv : th.serving
      · rw [if_neg (by simp [hsv])]
        exact Or.inr ⟨_, Or.inr ⟨rfl, hsv, rfl⟩, hp, rfl⟩
      · rw [if_pos (by simp [hsv])]
        exact Or.inl rfl
    | some sstate =>
      exact Or.inr ⟨sstate, Or.inl rfl, hp, rfl⟩

theorem ensure_findA_nodup (kss : keyspaceState)
    (hnd : (kss.shards.map Prod.fst).Nodup) (n : String) (v : shardState)
    (hf : findA kss.shards n = some v) :
    ∀ s', findA ((kss.ensureConsistentLocked).1.shards) n = some s' →
      s' = v := by
  rcases ensure_dichotomy kss with heq | ⟨p, _, _, _, _, heq⟩
  · rw [heq]
    intro s' h
    rw [hf] at h
    injection h with h
    exact h.symm
  · rw [heq]
    intro s' h
    simp only at h
    rw [findA_filter_nodup hnd _ n v hf] at h
    by_cases hq : v.serving = true
    · rw [if_pos (by simpa using hq)] at h
      injection h with h
      exact h.symm
    · rw [if_neg (by simpa using hq)] at h
      exact absurd h (by simp)

theorem healthTransition_er (s : shardState) (c : Bool) (th : TabletHealth) :
    ((healthTransition s c th).1.externallyReparented =
        s.externallyReparented ∧
      (healthTransition s c th).1.currentPrimary = s.currentPrimary) ∨
    (s.externallyReparented < th.primaryTermStartTime ∧
      th.primaryTermStartTime ≠ 0 ∧
      (healthTransition s c th).1.externallyReparented =
        th.primaryTermStartTime ∧
      (healthTransition s c th).1.currentPrimary = some th.tablet) := by
  simp only [healthTransition]
  have h1 := servingSwitch_fields s c th
  have h2 := clearWaitOnNotServing_fields (servingSwitch s c th).1 th
  rcases reparentDetect_mono
      (clearWaitOnNotServing (servingSwitch s c th).1 th)
      (servingSwitch s c th).2 th with ⟨he, hp⟩ | ⟨hlt, hne, he, hp⟩
  · left
    rw [he, hp, h2.2.2.1, h2.2.2.2, h1.2.1, h1.2.2]
    exact ⟨rfl, rfl⟩
  · right
    rw [h2.2.2.1, h1.2.1] at hlt
    exact ⟨hlt, hne, he, hp⟩

/-! ### Claim C8: replaying a topology snapshot is idempotent -/

theorem onSrvKeyspace_lastKeyspace (kss : keyspaceState)
    (nk : Option SrvKeyspace) :
    (kss.onSrvKeyspace nk none).1.lastKeyspace = nk := by
  unfold keyspaceState.onSrvKeyspace
  rw [if_neg (by simp)]
  dsimp only
  by_cases h2 : kss.lastKeyspace = nk
  · rw [if_pos h2]
    exact h2
  · rw [if_neg h2]
    exact (ensure_frame _).2.2.2.2

/-- C8: delivering `onSrvKeyspace` a second time with the same snapshot
and a nil error is a no-op: the state is unchanged, no event is
broadcast, and the callback returns true. -/
theorem onSrvKeyspace_idempotent (kss : keyspaceState)
    (nk : Option SrvKeyspace) :
    (kss.onSrvKeyspace nk none).1.onSrvKeyspace nk none =
      ((kss.onSrvKeyspace nk none).1, none, true) := by
  have hl := onSrvKeyspace_lastKeyspace kss nk
  generalize hgen : (kss.onSrvKeyspace nk none).1 = k1 at hl ⊢
  unfold keyspaceState.onSrvKeyspace
  rw [if_neg (by simp)]
  dsimp only
  rw [if_pos hl]

/-! ### Claim C10: `MarkShardNotServing` frame -/

theorem mark_found (kss : keyspaceState) (shard : String) (b : Bool)
    (st : shardState) (hs : findA kss.shards shard = some st) :
    kss.markShardNotServing shard b =
      ({ kss with
          consistent := false,
          shards := insertA kss.shards shard
            (if b then { st with serving := false, waitForReparent := true }
             else { st with serving := false }) }, true) := by
  unfold keyspaceState.markShardNotServing
  rw [hs]

theorem mark_absent (kss : keyspaceState) (shard : String) (b : Bool)
    (hs : findA kss.shards shard = none) :
    kss.markShardNotServing shard b = (kss, false) := by
  unfold keyspaceState.markShardNotServing
  rw [hs]

/-- C10: for a tracked, non-deleted keyspace,
`MarkShardNotServing(_, _, _, false)` on a tracked shard returns true,
sets that shard's `serving` to false and the keyspace's `consistent` to
false, and changes nothing else: the shard keeps its `waitForReparent`
latch, `externallyReparented`, `currentPrimary` and `target`, other
shards and other keyspaces are untouched; on an untracked shard it
returns false and changes no state. -/
theorem markShardNotServing_frame (kew : KeyspaceEventWatcher)
    (ks shard : String) (kss : keyspaceState)
    (hk : findA kew.keyspaces ks = some kss) (hd : kss.deleted = false) :
    (∀ s, findA kss.shards shard = some s →
      (kew.MarkShardNotServing ks shard false).2 = true ∧
      ∃ kss',
        findA (kew.MarkShardNotServing ks shard false).1.keyspaces ks =
          some kss' ∧
        kss'.consistent = false ∧
        findA kss'.shards shard = some { s with serving := false } ∧
        (∀ n, n ≠ shard → findA kss'.shards n = findA kss.shards n) ∧
        kss'.deleted = kss.deleted ∧
        kss'.lastKeyspace = kss.lastKeyspace ∧
        kss'.moveTablesState = kss.moveTablesState ∧
        ∀ k, k ≠ ks →
          findA (kew.MarkShardNotServing ks shard false).1.keyspaces k =
            findA kew.keyspaces k) ∧
    (findA kss.shards shard = none →
      kew.MarkShardNotServing ks shard false = (kew, false)) := by
  constructor
  · intro s hs
    unfold KeyspaceEventWatcher.MarkShardNotServing
    rw [getKeyspaceStatus_tracked kew ks kss hk hd]
    dsimp only
    rw [mark_found kss shard false s hs]
    dsimp only
    refine ⟨rfl, _, findA_insertA_self _ _ _, rfl,
      findA_insertA_self _ _ _, ?_, rfl, rfl, rfl, ?_⟩
    · intro n hn
      exact findA_insertA_ne _ _ _ _ hn
    · intro k hku
      exact findA_insertA_ne _ _ _ _ hku
  · intro hs
    unfold KeyspaceEventWatcher.MarkShardNotServing
    rw [getKeyspaceStatus_tracked kew ks kss hk hd]
    dsimp only
    rw [mark_absent kss shard false hs]

/-- C10 witness: the frame theorem evaluated on the concrete watcher with
one tracked shard (present and absent shard cases). -/
theorem markShardNotServing_frame_witness :
    (c1Kew.MarkShardNotServing "ks" "-80" false).2 = true ∧
    (∃ kss',
      findA (c1Kew.MarkShardNotServing "ks" "-80" false).1.keyspaces "ks" =
        some kss' ∧
      kss'.consistent = false ∧
      findA kss'.shards "-80" = some { c1Shard with serving := false } ∧
      (∀ n, n ≠ "-80" → findA kss'.shards n = findA c1Kss.shards n) ∧
      kss'.deleted = c1Kss.deleted ∧
      kss'.lastKeyspace = c1Kss.lastKeyspace ∧
      kss'.moveTablesState = c1Kss.moveTablesState ∧
      ∀ k, k ≠ "ks" →
        findA (c1Kew.MarkShardNotServing "ks" "-80" false).1.keyspaces k =
          findA c1Kew.keyspaces k) ∧
    c1Kew.MarkShardNotServing "ks" "0" false = (c1Kew, false) := by
  have h := markShardNotServing_frame c1Kew "ks" "-80" c1Kss (by decide)
    (by decide)
  have h0 := markShardNotServing_frame c1Kew "ks" "0" c1Kss (by decide)
    (by decide)
  obtain ⟨hb, hrest⟩ := h.1 c1Shard (by decide)
  exact ⟨hb, hrest, h0.2 (by decide)⟩

/-! ### Claim C7: `externallyReparented` is strictly monotonic per shard -/

/-- C7: across health-check events and `MarkShardNotServing` calls, a
tracked shard's `externallyReparented` never decreases, and any change
strictly increases it to the report's non-zero `primaryTermStartTime`;
`MarkShardNotServing` never changes it. -/
theorem externallyReparented_monotone (kss : keyspaceState) (name : String)
    (s : shardState) (hnd : (kss.shards.map Prod.fst).Nodup)
    (hf : findA kss.shards name = some s) :
    (∀ th s', findA (kss.onHealthCheck th).1.shards name = some s' →
      s.externallyReparented ≤ s'.externallyReparented ∧
      (s'.externallyReparented ≠ s.externallyReparented →
        s.externallyReparented < th.primaryTermStartTime ∧
        s'.externallyReparented = th.primaryTermStartTime ∧
        th.primaryTermStartTime ≠ 0)) ∧
    (∀ shard b s',
      findA (kss.markShardNotServing shard b).1.shards name = some s' →
      s'.externallyReparented = s.externallyReparented) := by
  constructor
  · intro th s' hs'
    rcases onHealthCheck_cases kss th with heq | ⟨s0, hs0, hp, heq⟩
    · rw [heq, hf] at hs'
      injection hs' with hs'
      subst hs'
      exact ⟨le_refl _, fun hne => absurd rfl hne⟩
    · rw [heq] at hs'
      by_cases hn : name = th.target.shard
      · subst hn
        have hs0s : s0 = s := by
          rcases hs0 with hcase | ⟨hnone, -, -⟩
          · rw [hf] at hcase
            injection hcase with h
            exact h.symm
          · rw [hf] at hnone
            exact absurd hnone (by simp)
        subst hs0s
        have hins : findA (insertA kss.shards th.target.shard
            (healthTransition s0 kss.consistent th).1) th.target.shard =
            some (healthTransition s0 kss.consistent th).1 :=
          findA_insertA_self _ _ _
        have hval := ensure_findA_nodup _ (insertA_keys_nodup hnd _ _)
          _ _ hins s' hs'
        rcases healthTransition_er s0 kss.consistent th with
          ⟨he, -⟩ | ⟨hlt, hne0, he, -⟩
        · rw [hval, he]
          exact ⟨le_refl _, fun hne => absurd rfl hne⟩
        · rw [hval, he]
          exact ⟨le_of_lt hlt, fun _ => ⟨hlt, rfl, hne0⟩⟩
      · have hins : findA (insertA kss.shards th.target.shard
            (healthTransition s0 kss.consistent th).1) name = some s := by
          rw [findA_insertA_ne _ _ _ _ hn]
          exact hf
        have hval := ensure_findA_nodup _ (insertA_keys_nodup hnd _ _)
          _ _ hins s' hs'
        rw [hval]
        exact ⟨le_refl _, fun hne => absurd rfl hne⟩
  · intro shard b s' hs'
    cases hsh : findA kss.shards shard with
    | none =>
      rw [mark_absent kss shard b hsh, hf] at hs'
      injection hs' with hs'
      rw [hs']
    | some st =>
      rw [mark_found kss shard b st hsh] at hs'
      dsimp only at hs'
      by_cases hn : name = shard
      · subst hn
        rw [findA_insertA_self] at hs'
        injection hs' with hs'
        have hst : st = s := by
          rw [hf] at hsh
          injection hsh with h
          exact h.symm
        subst hst
        rw [← hs']
        cases b <;> rfl
      · rw [findA_insertA_ne _ _ _ _ hn, hf] at hs'
        injection hs' with hs'
        rw [hs']

/-- C7 witness: the monotonicity theorem evaluated on a concrete shard
receiving a newer-term serving report, and a latched
`markShardNotServing`. -/
theorem externallyReparented_monotone_witness :
    c1Shard.externallyReparented ≤ c7s.externallyReparented ∧
    ({ c1Shard with serving := false, waitForReparent := true } :
        shardState).externallyReparented = c1Shard.externallyReparented := by
  have h := externallyReparented_monotone c1Kss "-80" c1Shard (by decide)
    (by decide)
  constructor
  · exact (h.1 c7th c7s (by decide)).1
  · exact h.2 "-80" true _ (by decide)

/-! ### Claim C3: detector error in `onSrvVSchema` -/

theorem getMoveTablesStatus_error (kss : keyspaceState) (vs : SrvVSchema)
    (fetch : Except TopoError (List ShardInfo)) (e : TopoError)
    (he : (kss.getMoveTablesStatus vs fetch).2 = some e) :
    (kss.getMoveTablesStatus vs fetch).1 =
      ⟨MoveTablesType.none, MoveTablesStatus.unknown⟩ ∧
    fetch = Except.error e := by
  unfold keyspaceState.getMoveTablesStatus at he ⊢
  by_cases h1 : vs.routingRules.length = 0 ∧ vs.shardRoutingRules.length = 0
  · rw [if_pos h1] at he
    exact absurd he (by simp)
  · rw [if_neg h1] at he ⊢
    cases fetch with
    | error e1 =>
      simp only at he ⊢
      injection he with he
      exact ⟨by trivial, by rw [he]⟩
    | ok sis =>
      exfalso
      dsimp only at he
      by_cases h2 : (collectDenied sis).2.length = 0
      · rw [if_pos h2] at he
        exact absurd he (by simp)
      · rw [if_neg h2] at he
        by_cases h3 : vs.shardRoutingRules.length > 0
        · rw [if_pos h3] at he
          exact absurd he (by simp)
        · rw [if_neg h3] at he
          exact absurd he (by simp)

/-- C3 (amended): when `getMoveTablesStatus` reports a non-nil error, the
callback does not keep the previous `moveTablesState`: it replaces it with
the detector's returned value — the `(None, Unknown)` placeholder — leaves
every other field unchanged (the shadowed error is only logged), and
returns true. -/
theorem moveTablesError_replaces (kss : keyspaceState) (vs : SrvVSchema)
    (cbErr : Option TopoError) (fetch : Except TopoError (List ShardInfo))
    (e : TopoError) (he : (kss.getMoveTablesStatus vs fetch).2 = some e) :
    (kss.onSrvVSchema (some vs) cbErr fetch).1 =
      { kss with
        moveTablesState := some ⟨MoveTablesType.none, MoveTablesStatus.unknown⟩ } ∧
    (kss.onSrvVSchema (some vs) cbErr fetch).2.1 = none ∧
    (kss.onSrvVSchema (some vs) cbErr fetch).2.2 = true := by
  obtain ⟨hm, -⟩ := getMoveTablesStatus_error kss vs fetch e he
  simp only [keyspaceState.onSrvVSchema]
  rw [hm]
  rw [if_neg (by simp)]
  refine ⟨?_, ?_, ?_⟩ <;> trivial

/-- C3 counterexample: with a previous `moveTablesState` of
`(Regular, Switching)` and a failing shard fetch, the callback replaces
the field with `(None, Unknown)` instead of leaving it at its previous
value. -/
theorem moveTablesError_cex :
    (c3state.getMoveTablesStatus c3vs
        (Except.error (TopoError.other "x"))).2 =
      some (TopoError.other "x") ∧
    c3state.moveTablesState =
      some ⟨MoveTablesType.regular, MoveTablesStatus.switching⟩ ∧
    (c3state.onSrvVSchema (some c3vs) none
        (Except.error (TopoError.other "x"))).1.moveTablesState =
      some ⟨MoveTablesType.none, MoveTablesStatus.unknown⟩ ∧
    (c3state.onSrvVSchema (some c3vs) none
        (Except.error (TopoError.other "x"))).1.moveTablesState ≠
      c3state.moveTablesState := by
  exact ⟨by decide, by decide, by decide, by decide⟩

/-- C3 witness: the amended theorem evaluated on the concrete state with
a failing fetch. -/
theorem moveTablesError_replaces_witness :
    (c3state.getMoveTablesStatus c3vs
        (Except.error (TopoError.other "x"))).2 =
      some (TopoError.other "x") ∧
    (c3state.onSrvVSchema (some c3vs) none
        (Except.error (TopoError.other "x"))).1 =
      { c3state with
        moveTablesState := some ⟨MoveTablesType.none, MoveTablesStatus.unknown⟩ } := by
  refine ⟨by decide, ?_⟩
  exact (moveTablesError_replaces c3state c3vs none _
    (TopoError.other "x") (by decide)).1

/-! ### Claim C9: regular MoveTables classification -/

theorem deniedFoldTC_mono (nm : String) (tcs : List TabletControl)
    (acc : String × List String) :
    acc.2.length ≤ (tcs.foldl (deniedFoldTC nm) acc).2.length := by
  induction tcs generalizing acc with
  | nil => exact le_refl _
  | cons tc rest ih =>
    simp only [List.foldl_cons]
    by_cases h : tc.deniedTables.length > 0
    · calc acc.2.length ≤ (acc.2 ++ [nm]).length := by simp
        _ ≤ _ := by
          have := ih (deniedFoldTC nm acc tc)
          simpa [deniedFoldTC, h] using this
    · have := ih (deniedFoldTC nm acc tc)
      simpa [deniedFoldTC, h] using this

theorem deniedFoldSI_mono (sis : List ShardInfo)
    (acc : String × List String) :
    acc.2.length ≤ (sis.foldl deniedFoldSI acc).2.length := by
  induction sis generalizing acc with
  | nil => exact le_refl _
  | cons si rest ih =>
    simp only [List.foldl_cons]
    calc acc.2.length ≤ (deniedFoldSI acc si).2.length :=
        deniedFoldTC_mono si.shardName si.tabletControls acc
      _ ≤ _ := ih _

theorem deniedFoldTC_denied (nm : String) (tcs : List TabletControl)
    (acc : String × List String)
    (h : ∃ tc ∈ tcs, tc.deniedTables ≠ []) :
    acc.2.length < (tcs.foldl (deniedFoldTC nm) acc).2.length := by
  induction tcs generalizing acc with
  | nil =>
    obtain ⟨tc, htc, -⟩ := h
    simp at htc
  | cons tc rest ih =>
    simp only [List.foldl_cons]
    obtain ⟨tc', htc', hdt⟩ := h
    rcases List.mem_cons.mp htc' with heq | hmem
    · subst heq
      have hlen : tc'.deniedTables.length > 0 :=
        List.length_pos.mpr hdt
      calc acc.2.length < (acc.2 ++ [nm]).length := by simp
        _ ≤ _ := by
          have := deniedFoldTC_mono nm rest (deniedFoldTC nm acc tc')
          simpa [deniedFoldTC, hlen] using this
    · by_cases hh : tc.deniedTables.length > 0
      · calc acc.2.length < (acc.2 ++ [nm]).length := by simp
          _ ≤ _ := by
            have := deniedFoldTC_mono nm rest (deniedFoldTC nm acc tc)
            simpa [deniedFoldTC, hh] using this
      · have := ih (deniedFoldTC nm acc tc) ⟨tc', hmem, hdt⟩
        simpa [deniedFoldTC, hh] using this

theorem collectDenied_nonempty (sis : List ShardInfo)
    (h : ∃ si ∈ sis, ∃ tc ∈ si.tabletControls, tc.deniedTables ≠ []) :
    (collectDenied sis).2.length ≠ 0 := by
  obtain ⟨si, hsi, htc⟩ := h
  obtain ⟨l1, l2, rfl⟩ := List.append_of_mem hsi
  unfold collectDenied
  rw [List.foldl_append, List.foldl_cons]
  have h1 : (l1.foldl deniedFoldSI ("", [])).2.length <
      (deniedFoldSI (l1.foldl deniedFoldSI ("", [])) si).2.length :=
    deniedFoldTC_denied si.shardName si.tabletControls _ htc
  have h2 := deniedFoldSI_mono l2 (deniedFoldSI (l1.foldl deniedFoldSI ("", [])) si)
  omega

/-- C9: with a non-empty routing-rules map (so that the shard records are
fetched), an empty shard-routing-rules map, and at least one fetched shard
carrying non-empty `DeniedTables`, the classification is `Regular`; the
state is `Switched` iff the table-routing map holds a non-empty rule for
the remembered denied table whose first target differs from
`"<keyspace>.<denied-table>"`, and `Switching` otherwise. -/
theorem moveTables_regular_classification (kss : keyspaceState)
    (vs : SrvVSchema) (sis : List ShardInfo)
    (hrr : vs.routingRules ≠ [])
    (hsrr : vs.shardRoutingRules = [])
    (hdenied : ∃ si ∈ sis, ∃ tc ∈ si.tabletControls,
      tc.deniedTables ≠ []) :
    (kss.getMoveTablesStatus vs (Except.ok sis)).2 = none ∧
    (kss.getMoveTablesStatus vs (Except.ok sis)).1.typ =
      MoveTablesType.regular ∧
    ((kss.getMoveTablesStatus vs (Except.ok sis)).1.state =
        MoveTablesStatus.switched ↔
      ∃ r, routingRulesLookup vs (collectDenied sis).1 = some r ∧
        r ≠ [] ∧
        r.headD "" ≠ kss.keyspace ++ "." ++ (collectDenied sis).1) ∧
    ((kss.getMoveTablesStatus vs (Except.ok sis)).1.state =
        MoveTablesStatus.switched ∨
      (kss.getMoveTablesStatus vs (Except.ok sis)).1.state =
        MoveTablesStatus.switching) := by
  have hne := collectDenied_nonempty sis hdenied
  unfold keyspaceState.getMoveTablesStatus
  rw [if_neg (by
    rintro ⟨h1, -⟩
    exact hrr (List.length_eq_zero.mp h1))]
  dsimp only
  rw [if_neg hne, if_neg (by simp [hsrr])]
  refine ⟨rfl, rfl, ?_, ?_⟩
  · cases hlk : routingRulesLookup vs (collectDenied sis).1 with
    | none =>
      simp only
      constructor
      · intro hsw
        exact absurd hsw (by simp)
      · rintro ⟨r, hr, -⟩
        exact absurd hr (by simp)
    | some r =>
      simp only
      by_cases hcond : r.length > 0 ∧
          r.headD "" ≠ kss.keyspace ++ "." ++ (collectDenied sis).1
      · rw [if_pos (by
          simp only [Bool.and_eq_true, decide_eq_true_eq, bne_iff_ne]
          exact ⟨by simpa using hcond.1, hcond.2⟩)]
        simp only [true_iff]
        exact ⟨r, rfl, List.ne_nil_of_length_pos hcond.1, hcond.2⟩
      · rw [if_neg (by
          simp only [Bool.and_eq_true, decide_eq_true_eq, bne_iff_ne]
          intro hc
          exact hcond ⟨by simpa using hc.1, hc.2⟩)]
        constructor
        · intro hsw
          exact absurd hsw (by simp)
        · rintro ⟨r', hr', hrn, hrh⟩
          injection hr' with hr'
          subst hr'
          exact absurd ⟨List.length_pos.mpr hrn, hrh⟩ hcond
  · cases hlk : routingRulesLookup vs (collectDenied sis).1 with
    | none => exact Or.inr rfl
    | some r =>
      simp only
      by_cases hcond : (decide (r.length > 0) &&
          (r.headD "" != kss.keyspace ++ "." ++ (collectDenied sis).1)) = true
      · rw [if_pos hcond]
        exact Or.inl rfl
      · rw [if_neg hcond]
        exact Or.inr rfl

/-- C9 witness: the classification theorem evaluated on one denied table
whose routing rule already points to another keyspace. -/
theorem moveTables_regular_classification_witness :
    ((newKeyspaceState "aa" "ks").getMoveTablesStatus c9vs
        (Except.ok c9sis)).1.typ = MoveTablesType.regular ∧
    ((newKeyspaceState "aa" "ks").getMoveTablesStatus c9vs
        (Except.ok c9sis)).1.state = MoveTablesStatus.switched := by
  have h := moveTables_regular_classification (newKeyspaceState "aa" "ks")
    c9vs c9sis (by decide) (by decide)
    ⟨⟨"-80", [⟨["t"]⟩]⟩, by decide, ⟨["t"]⟩, by decide, by decide⟩
  refine ⟨h.2.1, ?_⟩
  exact h.2.2.1.mpr ⟨["otherks.t"], by decide, by decide, by decide⟩

/-! ### Claim C6: `beingResharded` -/

theorem reshardScan_iff (cs : String) (ckr : KeyRange)
    (shards : List (String × shardState))
    (hp : ∀ p ∈ shards, p.2.serving = true → p.1 ≠ cs →
      ∃ kr, validateShardName p.1 = Except.ok (some kr)) :
    (reshardScan cs ckr shards = true ↔
      ∃ p ∈ shards, p.1 ≠ cs ∧ p.2.serving = true ∧
        ∃ skr, validateShardName p.1 = Except.ok (some skr) ∧
          keyRangeIntersect ckr skr = true) := by
  induction shards with
  | nil => simp [reshardScan]
  | cons hd tl ih =>
    obtain ⟨nm, st⟩ := hd
    have ihtl := ih (fun p hm => hp p (List.mem_cons_of_mem _ hm))
    by_cases hskip : (!st.serving || nm == cs) = true
    · unfold reshardScan
      rw [if_pos hskip]
      rw [ihtl]
      constructor
      · rintro ⟨p, hm, hrest⟩
        exact ⟨p, List.mem_cons_of_mem _ hm, hrest⟩
      · rintro ⟨p, hm, hne, hsv, hrest⟩
        rcases List.mem_cons.mp hm with heq | hm2
        · exfalso
          subst heq
          rw [Bool.or_eq_true, Bool.not_eq_true', beq_iff_eq] at hskip
          rcases hskip with h | h
          · rw [hsv] at h
            exact absurd h (by simp)
          · exact hne h
        · exact ⟨p, hm2, hne, hsv, hrest⟩
    · have hsv : st.serving = true := by
        rw [Bool.or_eq_true, not_or, Bool.not_eq_true', Bool.not_eq_false]
          at hskip
        exact hskip.1
      have hne : nm ≠ cs := by
        rw [Bool.or_eq_true, not_or] at hskip
        intro he
        exact hskip.2 (by simp [he])
      obtain ⟨kr, hkr⟩ := hp (nm, st) (List.mem_cons_self _ _) hsv hne
      unfold reshardScan
      rw [if_neg hskip, hkr]
      dsimp only
      by_cases hint : keyRangeIntersect ckr kr = true
      · rw [if_pos hint]
        simp only [true_iff]
        exact ⟨(nm, st), List.mem_cons_self _ _, hne, hsv, kr, hkr, hint⟩
      · rw [if_neg hint]
        rw [ihtl]
        constructor
        · rintro ⟨p, hm, hrest⟩
          exact ⟨p, List.mem_cons_of_mem _ hm, hrest⟩
        · rintro ⟨p, hm, hpne, hpsv, skr, hpskr, hpint⟩
          rcases List.mem_cons.mp hm with heq | hm2
          · exfalso
            subst heq
            rw [hkr] at hpskr
            injection hpskr with hpskr
            injection hpskr with hpskr
            subst hpskr
            exact hint hpint
          · exact ⟨p, hm2, hpne, hpsv, skr, hpskr, hpint⟩

/-- C6 (amended): `beingResharded(currentShard)` returns false if the
keyspace is deleted or consistent, a non-`None` MoveTables is in
progress, or `currentShard`'s name yields no key range; otherwise —
provided every *other serving* shard's name parses to a key range — it
returns true iff some other serving shard's key range overlaps
`currentShard`'s (a serving shard without a parseable key range makes the
scan return false as soon as it is reached, so without that proviso the
result depends on iteration order). -/
theorem beingResharded_spec (kss : keyspaceState) (currentShard : String) :
    ((kss.deleted = true ∨ kss.consistent = true ∨
        (∃ m, kss.moveTablesState = some m ∧ m.typ ≠ MoveTablesType.none) ∨
        ∀ kr, validateShardName currentShard ≠ Except.ok (some kr)) →
      kss.beingResharded currentShard = false) ∧
    (∀ ckr, kss.deleted = false → kss.consistent = false →
      (∀ m, kss.moveTablesState = some m → m.typ = MoveTablesType.none) →
      validateShardName currentShard = Except.ok (some ckr) →
      (∀ p ∈ kss.shards, p.2.serving = true → p.1 ≠ currentShard →
        ∃ kr, validateShardName p.1 = Except.ok (some kr)) →
      (kss.beingResharded currentShard = true ↔
        ∃ p ∈ kss.shards, p.1 ≠ currentShard ∧ p.2.serving = true ∧
          ∃ skr, validateShardName p.1 = Except.ok (some skr) ∧
            keyRangeIntersect ckr skr = true)) := by
  constructor
  · intro h
    unfold keyspaceState.beingResharded
    by_cases hg : (kss.deleted || kss.consistent ||
        match kss.moveTablesState with
        | some m => decide (m.typ ≠ MoveTablesType.none)
        | none => false) = true
    · rw [if_pos hg]
    · rw [if_neg hg]
      rcases h with h | h | ⟨m, hm, hmt⟩ | h
      · exact absurd (by simp [h]) hg
      · exact absurd (by simp [h]) hg
      · exfalso
        apply hg
        rw [hm]
        simp [hmt]
      · cases hv : validateShardName currentShard with
        | error e => rfl
        | ok o =>
          cases o with
          | none => rfl
          | some kr => exact absurd hv (h kr)
  · intro ckr hd hc hm hv hp
    unfold keyspaceState.beingResharded
    rw [if_neg (by
      simp only [hd, hc, Bool.or_eq_true, Bool.false_eq_true, false_or]
      cases hmts : kss.moveTablesState with
      | none => simp
      | some m =>
        simp only [decide_eq_true_eq]
        intro hne
        exact hne (hm m hmts))]
    rw [hv]
    exact reshardScan_iff currentShard ckr kss.shards hp

/-- C6 counterexample: with serving shards iterated as ["0", "-40"], the
scan meets the range-less shard "0" first and returns false, although the
other serving shard "-40" overlaps "-80" — so "true iff some other
serving shard overlaps" fails as stated. -/
theorem beingResharded_cex :
    c6state.beingResharded "-80" = false ∧
    c6state.deleted = false ∧ c6state.consistent = false ∧
    c6state.moveTablesState = none ∧
    validateShardName "-80" = Except.ok (some ⟨[], [128]⟩) ∧
    findA c6state.shards "-40" = some (c6Shard "-40") ∧
    (c6Shard "-40").serving = true ∧
    validateShardName "-40" = Except.ok (some ⟨[], [64]⟩) ∧
    keyRangeIntersect ⟨[], [128]⟩ ⟨[], [64]⟩ = true := by
  exact ⟨by decide, by decide, by decide, by decide, by decide, by decide,
    by decide, by decide, by decide⟩

/-- C6 witness: the amended theorem evaluated on a keyspace whose only
other serving shard parses and overlaps. -/
theorem beingResharded_spec_witness :
    c6good.beingResharded "-80" = true ∧
    (newKeyspaceState "aa" "ks").beingResharded "0" = false := by
  have h := beingResharded_spec c6good "-80"
  have h2 := beingResharded_spec (newKeyspaceState "aa" "ks") "0"
  constructor
  · refine (h.2 ⟨[], [128]⟩ (by decide) (by decide) ?_ (by decide) ?_).mpr
      ⟨("-40", c6Shard "-40"), by decide, by decide, by decide,
        ⟨[], [64]⟩, by decide, by decide⟩
    · intro m hm
      rw [show c6good.moveTablesState = none from rfl] at hm
      cases hm
    · rintro p hp hsv hne
      have hpv : p = ("-40", c6Shard "-40") := by
        rw [show c6good.shards = [("-40", c6Shard "-40")] from rfl] at hp
        simpa using hp
      subst hpv
      exact ⟨⟨[], [64]⟩, by decide⟩
  · refine h2.1 (Or.inr (Or.inr (Or.inr ?_)))
    intro kr hkr
    rw [show validateShardName "0" = Except.ok none from by decide] at hkr
    simp at hkr

/-! ### Claim C4: the `waitForReparent` latch -/

theorem healthTransition_blocked (s : shardState) (c : Bool)
    (th : TabletHealth) (hw : s.waitForReparent = true)
    (hsv : s.serving = false) (hts : th.serving = true)
    (hle : th.primaryTermStartTime ≤ s.externallyReparented) :
    healthTransition s c th = (s, false) := by
  have h1 : servingSwitch s c th = (s, false) := by
    unfold servingSwitch
    rw [if_pos (by rw [hsv, hts]; simp)]
    rw [if_pos (by rw [hts, hw]; rfl)]
    rw [if_neg (not_lt.mpr hle)]
  have h2 : clearWaitOnNotServing s th = s := by
    unfold clearWaitOnNotServing
    rw [if_neg (by rw [hts]; simp)]
  have h3 : reparentDetect s false th = (s, false) := by
    unfold reparentDetect
    rw [if_neg (by
      rintro ⟨-, hgt⟩
      exact absurd hgt (not_lt.mpr hle))]
  show reparentDetect
    (clearWaitOnNotServing (servingSwitch s c th).1 th)
    (servingSwitch s c th).2 th = (s, false)
  rw [h1]
  dsimp only
  rw [h2, h3]

theorem healthTransition_serving_of_latched (s : shardState) (c : Bool)
    (th : TabletHealth) (hw : s.waitForReparent = true)
    (hsv : s.serving = false)
    (hres : (healthTransition s c th).1.serving = true) :
    th.serving = true ∧
      s.externallyReparented < th.primaryTermStartTime := by
  by_cases hts : th.serving = true
  · by_cases hgt : s.externallyReparented < th.primaryTermStartTime
    · exact ⟨hts, hgt⟩
    · exfalso
      rw [healthTransition_blocked s c th hw hsv hts (not_lt.mp hgt)]
        at hres
      dsimp only at hres
      rw [hsv] at hres
      exact absurd hres (by simp)
  · exfalso
    have hts' : th.serving = false := by simpa using hts
    have h1 : servingSwitch s c th = (s, c) := by
      unfold servingSwitch
      rw [if_neg (by rw [hsv, hts']; simp)]
    have h2 : clearWaitOnNotServing s th =
        { s with waitForReparent := false } := by
      unfold clearWaitOnNotServing
      rw [if_pos (by rw [hts']; rfl)]
    obtain ⟨-, hserv, -⟩ :=
      reparentDetect_fields { s with waitForReparent := false } c th
    simp only [healthTransition] at hres
    rw [h1] at hres
    dsimp only at hres
    rw [h2, hserv] at hres
    rw [show ({ s with waitForReparent := false } : shardState).serving =
      s.serving from rfl, hsv] at hres
    exact absurd hres (by simp)

theorem ensure_stuck_state (kss : keyspaceState) (n : String)
    (v : shardState) (hmem : n ∈ partitionRefNames kss)
    (hf : findA kss.shards n = some v) (hsv : v.serving = false) :
    (kss.ensureConsistentLocked).1 = kss := by
  rcases ensure_dichotomy kss with heq | ⟨p, hp, -, hcov, -, -⟩
  · exact heq
  · exfalso
    unfold partitionRefNames at hmem
    rw [hp] at hmem
    obtain ⟨sr, hsr, hname⟩ := List.mem_map.mp hmem
    obtain ⟨st, hst, hstv⟩ := allRefsServing_find hcov hsr
    rw [hname, hf] at hst
    injection hst with hst
    rw [← hst, hsv] at hstv
    exact absurd hstv (by simp)

theorem latched_step (kss : keyspaceState) (name : String) (s : shardState)
    (e0 : Int) (th : TabletHealth)
    (hf : findA kss.shards name = some s) (hw : s.waitForReparent = true)
    (hsv : s.serving = false) (he : s.externallyReparented = e0)
    (hmem : name ∈ partitionRefNames kss)
    (hth : th.target.shard = name →
      th.serving = true ∧ th.primaryTermStartTime ≤ e0) :
    ∃ s1, findA (kss.onHealthCheck th).1.shards name = some s1 ∧
      s1.waitForReparent = true ∧ s1.serving = false ∧
      s1.externallyReparented = e0 ∧
      name ∈ partitionRefNames (kss.onHealthCheck th).1 := by
  rcases onHealthCheck_cases kss th with heq | ⟨s0, hs0, hp, heq⟩
  · rw [heq]
    exact ⟨s, hf, hw, hsv, he, hmem⟩
  · rw [heq]
    by_cases hn : name = th.target.shard
    · have hs0s : s0 = s := by
        rcases hs0 with hcase | ⟨hnone, -, -⟩
        · rw [← hn, hf] at hcase
          injection hcase with h
          exact h.symm
        · rw [← hn, hf] at hnone
          exact absurd hnone (by simp)
      subst hs0s
      obtain ⟨hts, hle⟩ := hth hn.symm
      have hb := healthTransition_blocked s0 kss.consistent th hw hsv hts
        (by rw [he]; exact hle)
      have hfi : findA (insertA kss.shards th.target.shard
          (healthTransition s0 kss.consistent th).1) name = some s0 := by
        rw [hn, hb]
        exact findA_insertA_self _ _ _
      have hst := ensure_stuck_state
        { kss with
          consistent := (healthTransition s0 kss.consistent th).2,
          shards := insertA kss.shards th.target.shard
            (healthTransition s0 kss.consistent th).1 }
        name s0 hmem hfi hsv
      rw [hst]
      exact ⟨s0, hfi, hw, hsv, he, hmem⟩
    · have hfi : findA (insertA kss.shards th.target.shard
          (healthTransition s0 kss.consistent th).1) name = some s := by
        rw [findA_insertA_ne _ _ _ _ hn]
        exact hf
      have hst := ensure_stuck_state
        { kss with
          consistent := (healthTransition s0 kss.consistent th).2,
          shards := insertA kss.shards th.target.shard
            (healthTransition s0 kss.consistent th).1 }
        name s hmem hfi hsv
      rw [hst]
      exact ⟨s, hfi, hw, hsv, he, hmem⟩

theorem latched_seq (ths : List TabletHealth) :
    ∀ (kss : keyspaceState) (name : String) (s : shardState) (e0 : Int),
      findA kss.shards name = some s →
      s.waitForReparent = true → s.serving = false →
      s.externallyReparented = e0 →
      name ∈ partitionRefNames kss →
      (∀ th ∈ ths, th.target.shard = name →
        th.serving = true ∧ th.primaryTermStartTime ≤ e0) →
      ∃ s2, findA (applyHealthList kss ths).shards name = some s2 ∧
        s2.serving = false ∧ s2.waitForReparent = true ∧
        s2.externallyReparented = e0 := by
  induction ths with
  | nil =>
    intro kss name s e0 hf hw hsv he _ _
    exact ⟨s, hf, hsv, hw, he⟩
  | cons th rest ih =>
    intro kss name s e0 hf hw hsv he hmem hths
    obtain ⟨s1, hf1, hw1, hsv1, he1, hmem1⟩ :=
      latched_step kss name s e0 th hf hw hsv he hmem
        (hths th (List.mem_cons_self _ _))
    exact ih _ name s1 e0 hf1 hw1 hsv1 he1 hmem1
      (fun th' hm => hths th' (List.mem_cons_of_mem _ hm))

/-- C4: while a shard's `waitForReparent` latch is set (and it is
therefore non-serving), (i) one health-check step can only make it
serving through a PRIMARY serving report for that shard whose term start
strictly exceeds the stored `externallyReparented`; (ii) a serving report
with a term start at most the stored value leaves the shard non-serving
with the latch still set; and (iii) across any sequence of health checks
whose reports for this shard are all serving with term starts at most the
stored value, the shard — kept in the PRIMARY partition so reconciliation
cannot evict it — stays non-serving with the latch set and an unchanged
`externallyReparented`. -/
theorem waitForReparent_latched (kss : keyspaceState) (name : String)
    (s : shardState) (hnd : (kss.shards.map Prod.fst).Nodup)
    (hf : findA kss.shards name = some s)
    (hw : s.waitForReparent = true) (hsv : s.serving = false) :
    (∀ th s', findA (kss.onHealthCheck th).1.shards name = some s' →
      s'.serving = true →
      th.target.tabletType = TabletType.primary ∧ th.target.shard = name ∧
        th.serving = true ∧
        s.externallyReparented < th.primaryTermStartTime) ∧
    (∀ th, th.target.tabletType = TabletType.primary →
      th.target.shard = name → th.serving = true →
      th.primaryTermStartTime ≤ s.externallyReparented →
      ∀ s', findA (kss.onHealthCheck th).1.shards name = some s' →
        s'.serving = false ∧ s'.waitForReparent = true) ∧
    (name ∈ partitionRefNames kss →
      ∀ ths : List TabletHealth,
        (∀ th ∈ ths, th.target.shard = name →
          th.serving = true ∧
          th.primaryTermStartTime ≤ s.externallyReparented) →
        ∃ s2, findA (applyHealthList kss ths).shards name = some s2 ∧
          s2.serving = false ∧ s2.waitForReparent = true ∧
          s2.externallyReparented = s.externallyReparented) := by
  refine ⟨?_, ?_, ?_⟩
  · intro th s' hfind hserv
    rcases onHealthCheck_cases kss th with heq | ⟨s0, hs0, hp, heq⟩
    · exfalso
      rw [heq, hf] at hfind
      injection hfind with hfind
      rw [← hfind, hsv] at hserv
      exact absurd hserv (by simp)
    · rw [heq] at hfind
      by_cases hn : name = th.target.shard
      · have hs0s : s0 = s := by
          rcases hs0 with hcase | ⟨hnone, -, -⟩
          · rw [← hn, hf] at hcase
            injection hcase with h
            exact h.symm
          · rw [← hn, hf] at hnone
            exact absurd hnone (by simp)
        subst hs0s
        have hfi : findA (insertA kss.shards th.target.shard
            (healthTransition s0 kss.consistent th).1) name =
            some (healthTransition s0 kss.consistent th).1 := by
          rw [hn]
          exact findA_insertA_self _ _ _
        have hval := ensure_findA_nodup _ (insertA_keys_nodup hnd _ _)
          _ _ hfi s' hfind
        rw [hval] at hserv
        obtain ⟨hts, hlt⟩ := healthTransition_serving_of_latched s0
          kss.consistent th hw hsv hserv
        exact ⟨hp, hn.symm, hts, hlt⟩
      · exfalso
        have hfi : findA (insertA kss.shards th.target.shard
            (healthTransition s0 kss.consistent th).1) name = some s := by
          rw [findA_insertA_ne _ _ _ _ hn]
          exact hf
        have hval := ensure_findA_nodup _ (insertA_keys_nodup hnd _ _)
          _ _ hfi s' hfind
        rw [hval, hsv] at hserv
        exact absurd hserv (by simp)
  · intro th hp hsh hts hle s' hfind
    rcases onHealthCheck_cases kss th with heq | ⟨s0, hs0, -, heq⟩
    · rw [heq, hf] at hfind
      injection hfind with hfind
      rw [← hfind]
      exact ⟨hsv, hw⟩
    · rw [heq] at hfind
      have hs0s : s0 = s := by
        rcases hs0 with hcase | ⟨hnone, -, -⟩
        · rw [hsh, hf] at hcase
          injection hcase with h
          exact h.symm
        · rw [hsh, hf] at hnone
          exact absurd hnone (by simp)
      subst hs0s
      have hb := healthTransition_blocked s0 kss.consistent th hw hsv hts hle
      have hfi : findA (insertA kss.shards th.target.shard
          (healthTransition s0 kss.consistent th).1) name = some s0 := by
        rw [hsh, hb]
        exact findA_insertA_self _ _ _
      have hval := ensure_findA_nodup _ (insertA_keys_nodup hnd _ _)
        _ _ hfi s' hfind
      rw [hval]
      exact ⟨hsv, hw⟩
  · intro hmem ths hths
    exact latched_seq ths kss name s s.externallyReparented hf hw hsv rfl
      hmem hths

/-- C4 witness: a latched shard in the PRIMARY partition receives two
stale serving reports and stays non-serving with the latch set. -/
theorem waitForReparent_latched_witness :
    (∃ s', findA ((c4Kss.onHealthCheck c4th).1.shards) "-80" = some s' ∧
      s'.serving = false ∧ s'.waitForReparent = true) ∧
    (∃ s2, findA (applyHealthList c4Kss [c4th, c4th]).shards "-80" =
        some s2 ∧
      s2.serving = false ∧ s2.waitForReparent = true ∧
      s2.externallyReparented = c4Shard.externallyReparented) := by
  have h := waitForReparent_latched c4Kss "-80" c4Shard (by decide)
    (by decide) (by decide) (by decide)
  constructor
  · have hsw := h.2.1 c4th rfl rfl rfl (by decide) c4Shard (by decide)
    exact ⟨c4Shard, by decide, hsw.1, hsw.2⟩
  · refine h.2.2 (by decide) [c4th, c4th] ?_
    intro th hm hsh
    rcases List.mem_cons.mp hm with rfl | hm2
    · exact ⟨rfl, le_refl _⟩
    · rcases List.mem_cons.mp hm2 with rfl | hm3
      · exact ⟨rfl, le_refl _⟩
      · exact absurd hm3 (by simp)

/-! ### Claim C5: `WaitForConsistentKeyspaces` frame -/

theorem checkKeyspaces_spec (l : List String) :
    ∀ kew : KeyspaceEventWatcher, (∀ ks ∈ l, TrackedLive kew ks) →
      (checkKeyspaces kew l).1 = kew ∧
      ((checkKeyspaces kew l).2.2 = true ↔
        ∀ ks ∈ l, ks ≠ "" →
          ∀ kss, findA kew.keyspaces ks = some kss →
            kss.consistent = true) ∧
      (∀ ks ∈ (checkKeyspaces kew l).2.1, TrackedLive kew ks) ∧
      ((checkKeyspaces kew l).2.2 = false →
        ∃ ks kss, ks ∈ (checkKeyspaces kew l).2.1 ∧ ks ∈ l ∧ ks ≠ "" ∧
          findA kew.keyspaces ks = some kss ∧ kss.consistent = false) := by
  induction l with
  | nil =>
    intro kew _
    refine ⟨rfl, ?_, ?_, ?_⟩
    · simp [checkKeyspaces]
    · intro ks hm
      simp [checkKeyspaces] at hm
    · intro hfalse
      simp [checkKeyspaces] at hfalse
  | cons ks rest ih =>
    intro kew h
    have hrest := ih kew (fun k hm => h k (List.mem_cons_of_mem _ hm))
    obtain ⟨hfr, hiff, hent, hfl⟩ := hrest
    by_cases hne : ks = ""
    · subst hne
      unfold checkKeyspaces
      rw [if_pos rfl]
      dsimp only
      refine ⟨hfr, ?_, ?_, ?_⟩
      · rw [hiff]
        constructor
        · intro hall k hm hk
          rcases List.mem_cons.mp hm with heq | hm2
          · exact absurd heq hk
          · exact hall k hm2 hk
        · intro hall k hm hk
          exact hall k (List.mem_cons_of_mem _ hm) hk
      · intro k hm
        rcases List.mem_cons.mp hm with heq | hm2
        · exact Or.inl heq
        · exact hent k hm2
      · intro hfalse
        obtain ⟨k, kss, hk1, hk2, hk3, hk4, hk5⟩ := hfl hfalse
        exact ⟨k, kss, List.mem_cons_of_mem _ hk1,
          List.mem_cons_of_mem _ hk2, hk3, hk4, hk5⟩
    · rcases h ks (List.mem_cons_self _ _) with heq | ⟨kss, hfind, hdel⟩
      · exact absurd heq hne
      · unfold checkKeyspaces
        rw [if_neg hne, getKeyspaceStatus_tracked kew ks kss hfind hdel]
        dsimp only
        by_cases hc : kss.isConsistent = true
        · rw [if_pos hc]
          dsimp only
          refine ⟨hfr, ?_, ?_, ?_⟩
          · rw [hiff]
            constructor
            · intro hall k hm hk
              rcases List.mem_cons.mp hm with heq | hm2
              · subst heq
                intro kss' hfind'
                rw [hfind] at hfind'
                injection hfind' with hfind'
                rw [← hfind']
                exact hc
              · exact hall k hm2 hk
            · intro hall k hm hk
              exact hall k (List.mem_cons_of_mem _ hm) hk
          · intro k hm
            rcases List.mem_cons.mp hm with heq | hm2
            · exact Or.inl heq
            · exact hent k hm2
          · intro hfalse
            obtain ⟨k, kss', hk1, hk2, hk3, hk4, hk5⟩ := hfl hfalse
            exact ⟨k, kss', List.mem_cons_of_mem _ hk1,
              List.mem_cons_of_mem _ hk2, hk3, hk4, hk5⟩
        · rw [if_neg hc]
          dsimp only
          have hcf : kss.consistent = false := by
            unfold keyspaceState.isConsistent at hc
            simpa using hc
          refine ⟨hfr, ?_, ?_, ?_⟩
          · simp only [Bool.false_eq_true, false_iff]
            intro hall
            have := hall ks (List.mem_cons_self _ _) hne kss hfind
            rw [hcf] at this
            exact absurd this (by simp)
          · intro k hm
            rcases List.mem_cons.mp hm with heq | hm2
            · subst heq
              exact Or.inr ⟨kss, hfind, hdel⟩
            · exact hent k hm2
          · intro _
            exact ⟨ks, kss, List.mem_cons_self _ _,
              List.mem_cons_self _ _, hne, hfind, hcf⟩

/-- C5 (amended): provided every non-blank keyspace named in the list is
already tracked and not deleted, `WaitForConsistentKeyspaces` leaves the
watcher's state completely unchanged (it only reads), returns nil exactly
when every named keyspace is consistent, and returns the context's error
(fuel exhausted) otherwise.  Without that proviso the call mutates the
watcher: looking up an untracked keyspace allocates tracking state for it,
and looking up a deleted one evicts it. -/
theorem waitForConsistent_frame (fuel : Nat) :
    ∀ (kew : KeyspaceEventWatcher) (l : List String),
      (∀ ks ∈ l, TrackedLive kew ks) →
      (kew.WaitForConsistentKeyspaces fuel l).1 = kew ∧
      ((kew.WaitForConsistentKeyspaces fuel l).2 = true ↔
        ∀ ks ∈ l, ks ≠ "" →
          ∀ kss, findA kew.keyspaces ks = some kss →
            kss.consistent = true) := by
  induction fuel with
  | zero =>
    intro kew l h
    obtain ⟨hfr, hiff, -, hfl⟩ := checkKeyspaces_spec l kew h
    unfold KeyspaceEventWatcher.WaitForConsistentKeyspaces
    by_cases hall : (checkKeyspaces kew l).2.2 = true
    · rw [if_pos hall]
      exact ⟨hfr, by simp only [true_iff]; exact hiff.mp hall⟩
    · rw [if_neg hall]
      refine ⟨hfr, ?_⟩
      simp only [Bool.false_eq_true, false_iff]
      intro hcons
      obtain ⟨k, kss, -, hk2, hk3, hk4, hk5⟩ :=
        hfl (by simpa using hall)
      have := hcons k hk2 hk3 kss hk4
      rw [hk5] at this
      exact absurd this (by simp)
  | succ fuel ih =>
    intro kew l h
    obtain ⟨hfr, hiff, hent, hfl⟩ := checkKeyspaces_spec l kew h
    unfold KeyspaceEventWatcher.WaitForConsistentKeyspaces
    by_cases hall : (checkKeyspaces kew l).2.2 = true
    · rw [if_pos hall]
      exact ⟨hfr, by simp only [true_iff]; exact hiff.mp hall⟩
    · rw [if_neg hall]
      dsimp only
      rw [hfr]
      obtain ⟨hfr2, hiff2⟩ := ih kew (checkKeyspaces kew l).2.1 hent
      refine ⟨hfr2, ?_⟩
      obtain ⟨k, kss, hk1, hk2, hk3, hk4, hk5⟩ :=
        hfl (by simpa using hall)
      constructor
      · intro htrue
        exfalso
        have := (hiff2.mp htrue) k hk1 hk3 kss hk4
        rw [hk5] at this
        exact absurd this (by simp)
      · intro hcons
        exfalso
        have := hcons k hk2 hk3 kss hk4
        rw [hk5] at this
        exact absurd this (by simp)

/-- C5 counterexample: calling `WaitForConsistentKeyspaces` with a
keyspace name the watcher has never seen mutates the watcher — the lookup
allocates fresh tracking state for it — refuting "does not modify the
watcher's state" as stated. -/
theorem waitForConsistent_frame_cex :
    (c5Kew.WaitForConsistentKeyspaces 0 ["ks"]).1 ≠ c5Kew ∧
    findA c5Kew.keyspaces "ks" = none ∧
    findA (c5Kew.WaitForConsistentKeyspaces 0 ["ks"]).1.keyspaces "ks" =
      some (newKeyspaceState "aa" "ks") := by
  exact ⟨by decide, by decide, by decide⟩

/-- C5 witness: the frame theorem evaluated on a watcher tracking one
consistent keyspace and on a watcher tracking one inconsistent keyspace. -/
theorem waitForConsistent_frame_witness :
    (c5Kew2.WaitForConsistentKeyspaces 0 ["ks"]).1 = c5Kew2 ∧
    (c5Kew2.WaitForConsistentKeyspaces 0 ["ks"]).2 = true ∧
    (c1Kew.WaitForConsistentKeyspaces 3 ["ks"]).1 = c1Kew ∧
    (c1Kew.WaitForConsistentKeyspaces 3 ["ks"]).2 = false := by
  have h1 := waitForConsistent_frame 0 c5Kew2 ["ks"] (by
    intro ks hm
    rcases List.mem_cons.mp hm with rfl | hm2
    · exact Or.inr ⟨c5Kss2, by decide, by decide⟩
    · exact absurd hm2 (by simp))
  have h2 := waitForConsistent_frame 3 c1Kew ["ks"] (by
    intro ks hm
    rcases List.mem_cons.mp hm with rfl | hm2
    · exact Or.inr ⟨c1Kss, by decide, by decide⟩
    · exact absurd hm2 (by simp))
  refine ⟨h1.1, ?_, h2.1, ?_⟩
  · refine h1.2.mpr ?_
    intro ks hm hne kss hfind
    rcases List.mem_cons.mp hm with rfl | hm2
    · rw [show findA c5Kew2.keyspaces "ks" = some c5Kss2 from by decide]
        at hfind
      injection hfind with hfind
      rw [← hfind]
      decide
    · exact absurd hm2 (by simp)
  · by_cases hb : (c1Kew.WaitForConsistentKeyspaces 3 ["ks"]).2 = true
    · exfalso
      have := h2.2.mp hb "ks" (List.mem_cons_self _ _) (by simp) c1Kss
        (by decide)
      rw [show c1Kss.consistent = false from by decide] at this
      exact absurd this (by simp)
    · simpa using hb

end KEW
